import Mathlib

/-
Verification of the workflow-graph execution model of the
amazon-sagemaker-safe-deployment-pipeline repository.

The repository's own code (src/notebook/workflow.ipynb) only declares a
workflow graph as data for an external managed workflow engine; the engine
itself (the Executor, Choice, Parallel, ExecutionContext semantics of
spec.md sections 3 to 7) is not in the repository.  Following the spec,
these semantics are modelled here and the notebook's concrete graph
(steps, catch rules, choice rule, parallel node) is embedded on top of
that model.
-/

namespace Wf

/-- JSON-like leaf value stored in the execution context
(string, number, bool, null; spec section 3). -/
inductive Val where
  | vstr (s : String)
  | vnum (n : Int)
  | vbool (b : Bool)
  | vnull
deriving DecidableEq, Repr

instance : Inhabited Val := ⟨.vnull⟩

/-- A key path into the execution context. -/
abbrev Path := List String

/-- Modelled from the spec: the ExecutionContext of section 3, a
"mapping from string key-path to JSON-like value".  Represented as an
association list with the newest binding first; lookups take the newest
binding, so mutation is append/overwrite only and no key is ever
deleted. -/
abbrev Ctx := List (Path × Val)

/-- Context-access errors of spec section 7. -/
inductive CtxError where
  | pathNotFound (p : Path)
  | pathCollision (p : Path)
deriving DecidableEq, Repr

/-- Modelled from the spec: context lookup (newest binding wins). -/
def ctxGet (p : Path) : Ctx → Option Val
  | [] => none
  | (q, v) :: rest => if q = p then some v else ctxGet p rest

/-- Modelled from the spec: get(path), failing with PathNotFound when the
path is absent (spec section 4.1). -/
def ctxGetE (p : Path) (c : Ctx) : Except CtxError Val :=
  match ctxGet p c with
  | some v => .ok v
  | none => .error (.pathNotFound p)

/-- Modelled from the spec: set(path, value); total, prepends the new
binding so earlier bindings are shadowed but never removed. -/
def ctxSet (p : Path) (v : Val) (c : Ctx) : Ctx := (p, v) :: c

/-- The key-paths bound in a context (with multiplicity; membership is
what matters). -/
def ctxKeys (c : Ctx) : List Path := c.map (fun e => e.1)

/-- Modelled from the spec: merge(subcontext, atPath) writes the whole
subtree below atPath (spec section 4.1); append/overwrite only. -/
def ctxMergeAt (sub : Ctx) (atPath : Path) (c : Ctx) : Ctx :=
  (sub.map (fun e => (atPath ++ e.1, e.2))) ++ c

/-- The leaf paths a merge of `sub` at `atPath` writes. -/
def subLeaves (sub : Ctx) (atPath : Path) : List Path :=
  sub.map (fun e => atPath ++ e.1)

/-- The first path of the first list that also occurs in the second
list; none when the two lists are disjoint. -/
def firstCollision : List Path → List Path → Option Path
  | [], _ => none
  | q :: rest, written =>
    if q ∈ written then some q else firstCollision rest written

/-- Modelled from the spec: the fan-in form of merge used when joining
Parallel branches: it fails with PathCollision exactly when one of the
leaves it would write was already written by a previous branch of the
same fan-in (tracked in `written`). -/
def ctxMergeFanIn (sub : Ctx) (atPath : Path) (written : List Path) (c : Ctx) :
    Except CtxError (Ctx × List Path) :=
  match firstCollision (subLeaves sub atPath) written with
  | some q => .error (.pathCollision q)
  | none => .ok (ctxMergeAt sub atPath c, subLeaves sub atPath ++ written)

/-- Error kinds are the error name strings matched by catch rules. -/
abbrev ErrorKind := String

/-- The error kind reported by a failing external invocable. -/
def taskFailedKind : ErrorKind := "States.TaskFailed"

/-- The error kind reported on task timeout. -/
def timeoutKind : ErrorKind := "States.Timeout"

/-- The error kind reported on an authorization failure. -/
def permissionKind : ErrorKind := "States.PermissionDenied"

/-- A structured runtime failure: an error kind plus a cause string. -/
structure Err where
  kind : ErrorKind
  cause : String
deriving DecidableEq, Repr

/-- Modelled from the spec: a Choice predicate over a resolved context
value: numeric comparison, string equality, existence check
(spec section 4.3). -/
inductive Pred where
  | numLt (p : Path) (bound : Int)
  | strEq (p : Path) (s : String)
  | isPresent (p : Path)
deriving DecidableEq, Repr

/-- Evaluate a predicate on the current context. -/
def evalPred : Pred → Ctx → Bool
  | .numLt p b, c =>
    match ctxGet p c with
    | some (.vnum n) => n < b
    | _ => false
  | .strEq p s, c =>
    match ctxGet p c with
    | some (.vstr t) => t == s
    | _ => false
  | .isPresent p, c => (ctxGet p c).isSome

/-- A task input parameter value: a literal, or a reference resolved
from the context by path lookup (spec section 4.2). -/
inductive InVal where
  | lit (v : Val)
  | ref (p : Path)
deriving DecidableEq, Repr

/-- Modelled from the spec: input resolution for a Task step; reference
values are looked up in the context (PathNotFound when absent), literal
values pass through unchanged. -/
def resolveInputs : List (String × InVal) → Ctx → Except CtxError Ctx
  | [], _ => .ok []
  | (k, .lit v) :: rest, c =>
    (resolveInputs rest c).map (fun r => ([k], v) :: r)
  | (k, .ref p) :: rest, c =>
    match ctxGetE p c with
    | .error e => .error e
    | .ok v => (resolveInputs rest c).map (fun r => ([k], v) :: r)

/-- Modelled from the spec: a workflow graph node.  Task carries its
input selector, its external action, its result path, ordered catch
rules and a next node; Choice carries ordered (predicate, next) rules
and an optional default; Parallel carries branches with their declared
result paths, catch rules and a next node; Succeed and Fail are
terminal.  The graph is a tree, hence acyclic by construction. -/
inductive Node where
  | task (name : String) (inputs : List (String × InVal))
      (act : Ctx → Except Err Ctx) (resultPath : Path)
      (catches : List (List String × Node)) (next : Node)
  | choice (name : String) (rules : List (Pred × Node)) (dflt : Option Node)
  | parallel (name : String) (branches : List (Node × Path))
      (catches : List (List String × Node)) (next : Node)
  | succeed (name : String)
  | fail (name : String) (errName : String) (cause : String)

/-- Per-node status recorded in the run log. -/
inductive Status where
  | succeeded
  | failed (e : Err)
  | caught (e : Err)
deriving DecidableEq, Repr

/-- The terminal result of a run: Succeeded with the final context,
Failed with the unhandled error, or an abnormal context error. -/
inductive RunResult where
  | succeeded (c : Ctx)
  | failed (e : Err)
  | ctxErr (e : CtxError)
deriving DecidableEq, Repr

/-- The observable outcome of a run: terminal result plus the per-node
status log. -/
structure Outcome where
  result : RunResult
  log : List (String × Status)
deriving DecidableEq, Repr

/-- Prefix log entries onto an outcome. -/
def prependLog (entries : List (String × Status)) (o : Outcome) : Outcome :=
  { o with log := entries ++ o.log }

/-- Modelled from the spec: catch matching (spec section 4.5): the raised
error kind is matched against the patterns in declaration order; the
first rule whose pattern list contains the kind wins. -/
def matchCatch (k : ErrorKind) : List (List String × Node) → Option Node
  | [] => none
  | (pats, h) :: rest => if pats.contains k then some h else matchCatch k rest

/-- Modelled from the spec: Choice rule selection (spec section 4.3):
rules are evaluated in declaration order and the first matching
predicate determines the next node. -/
def selectRule (c : Ctx) : List (Pred × Node) → Option Node
  | [] => none
  | (p, n) :: rest => if evalPred p c then some n else selectRule c rest

/-- The run-log status entry recorded for an abnormal context error. -/
def ctxErrStatus : Status := .failed ⟨"States.Runtime", "context error"⟩

/-- Concatenated logs of all branch outcomes of a Parallel fan-in. -/
def branchLogs (rs : List (Outcome × Path)) : List (String × Status) :=
  rs.foldr (fun r acc => r.1.log ++ acc) []

/-- The first branch error of a Parallel fan-in, in branch declaration
order: a context error or a structured failure; none when every branch
succeeded. -/
def firstBranchErr : List (Outcome × Path) → Option (Sum CtxError Err)
  | [] => none
  | (o, _) :: rest =>
    match o.result with
    | .ctxErr ce => some (.inl ce)
    | .failed e => some (.inr e)
    | .succeeded _ => firstBranchErr rest

/-- Join the successful branch results into the parent context, merging
each branch subtree at its declared path and detecting collisions
against the leaves written by earlier branches of the same fan-in. -/
def joinAllAux : List (Outcome × Path) → List Path → Ctx → Except CtxError Ctx
  | [], _, c => .ok c
  | (o, p) :: rest, written, c =>
    match o.result with
    | .succeeded bc =>
      match ctxMergeFanIn bc p written c with
      | .error ce => .error ce
      | .ok (c', w') => joinAllAux rest w' c'
    | _ => joinAllAux rest written c

/-- Join all branch results starting from an empty written set. -/
def joinAll (rs : List (Outcome × Path)) (c : Ctx) : Except CtxError Ctx :=
  joinAllAux rs [] c

/-- Outcome of a failed Task after its catch rules were consulted:
control moves to the matched handler, or the failure propagates to the
enclosing composite. -/
def taskFailFinish (name : String) (e : Err) (ho : Option Outcome) : Outcome :=
  match ho with
  | some o => prependLog [(name, .failed e), (name, .caught e)] o
  | none => { result := .failed e, log := [(name, .failed e)] }

/-- Outcome of a Choice given the outcome of its first matching rule
and the outcome of its default branch. -/
def choiceFinish (name : String) (ho hd : Option Outcome) : Outcome :=
  match ho with
  | some o => prependLog [(name, .succeeded)] o
  | none =>
    match hd with
    | some o => prependLog [(name, .succeeded)] o
    | none =>
      { result := .failed ⟨"States.NoChoiceMatched", name⟩
        log := [(name, .failed ⟨"States.NoChoiceMatched", name⟩)] }

/-- Outcome of a Parallel node given the outcomes of all its branches:
on the first branch error the catch rules are consulted only after
every branch has terminated; when every branch succeeded the results
are joined and control proceeds to the next node. -/
def parallelStep (name : String) (rs : List (Outcome × Path))
    (catchRun : ErrorKind → Option Outcome) (nextRun : Ctx → Outcome)
    (c : Ctx) : Outcome :=
  match firstBranchErr rs with
  | some (.inl ce) =>
    { result := .ctxErr ce, log := branchLogs rs ++ [(name, ctxErrStatus)] }
  | some (.inr e) =>
    match catchRun e.kind with
    | some o =>
      prependLog (branchLogs rs ++ [(name, .failed e), (name, .caught e)]) o
    | none =>
      { result := .failed e, log := branchLogs rs ++ [(name, .failed e)] }
  | none =>
    match joinAll rs c with
    | .error ce =>
      { result := .ctxErr ce, log := branchLogs rs ++ [(name, ctxErrStatus)] }
    | .ok c' =>
      prependLog (branchLogs rs ++ [(name, .succeeded)]) (nextRun c')

mutual
/-- Modelled from the spec: the Executor (spec section 4.6).  Walks the
graph with the current context: a Task resolves its inputs, dispatches
its action, merges the result at its result path and proceeds to its
next node, or on failure consults its catch rules; a Choice takes the
first matching rule or its default; a Parallel runs every branch to
completion on an independent copy of the context, then joins on success
or consults its catch rules on the first branch failure; Succeed and
Fail terminate the run. -/
def run : Node → Ctx → Outcome
  | .succeed name, c => { result := .succeeded c, log := [(name, .succeeded)] }
  | .fail name errName cause, _ =>
    { result := .failed ⟨errName, cause⟩
      log := [(name, .failed ⟨errName, cause⟩)] }
  | .task name inputs act resPath catches next, c =>
    match resolveInputs inputs c with
    | .error ce => { result := .ctxErr ce, log := [(name, ctxErrStatus)] }
    | .ok payload =>
      match act payload with
      | .ok out =>
        prependLog [(name, .succeeded)] (run next (ctxMergeAt out resPath c))
      | .error e => taskFailFinish name e (runCatches e.kind c catches)
  | .choice name rules dflt, c =>
    choiceFinish name (runRules c rules) (runDflt dflt c)
  | .parallel name branches catches next, c =>
    parallelStep name (runBranches branches c)
      (fun k => runCatches k c catches) (fun c' => run next c') c

/-- Run every branch of a Parallel node, each on its own copy of the
fork-time context; every branch runs to completion regardless of the
outcomes of its siblings. -/
def runBranches : List (Node × Path) → Ctx → List (Outcome × Path)
  | [], _ => []
  | (b, p) :: rest, c => (run b c, p) :: runBranches rest c

/-- Run the handler of the first catch rule whose pattern list contains
the raised error kind; none when no catch rule matches. -/
def runCatches (k : ErrorKind) (c : Ctx) :
    List (List String × Node) → Option Outcome
  | [] => none
  | (pats, h) :: rest =>
    if pats.contains k then some (run h c) else runCatches k c rest

/-- Run the target of the first Choice rule whose predicate holds on
the current context; none when no rule matches. -/
def runRules (c : Ctx) : List (Pred × Node) → Option Outcome
  | [] => none
  | (p, n) :: rest =>
    if evalPred p c then some (run n c) else runRules c rest

/-- Run the default branch of a Choice when one is declared. -/
def runDflt : Option Node → Ctx → Option Outcome
  | none, _ => none
  | some d, c => some (run d c)
end

/-- Build-time validation failures (spec section 7). -/
inductive BuildError where
  | missingDefaultBranch (name : String)
  | resultPathOverlap (name : String)
deriving DecidableEq, Repr

/-- Two result paths are disjoint when neither is a prefix of the
other, so the subtrees below them cannot share a leaf. -/
def pathsDisjoint (p q : Path) : Bool := !(p.isPrefixOf q) && !(q.isPrefixOf p)

/-- Pairwise disjointness of the declared branch result paths. -/
def pairwiseDisjoint : List Path → Bool
  | [] => true
  | p :: rest => rest.all (fun q => pathsDisjoint p q) && pairwiseDisjoint rest

mutual
/-- Modelled from the spec: the build-time validation pass: a Choice
without a default branch is rejected with MissingDefaultBranch
(spec section 4.3); a Parallel whose declared branch result paths are
not pairwise disjoint is rejected (spec section 3); validation recurses
into every rule target, catch handler, branch and next node. -/
def validate : Node → Except BuildError Unit
  | .succeed _ => .ok ()
  | .fail _ _ _ => .ok ()
  | .task _ _ _ _ catches next =>
    match validateCatches catches with
    | .error e => .error e
    | .ok _ => validate next
  | .choice name rules dflt =>
    match dflt with
    | none => .error (.missingDefaultBranch name)
    | some d =>
      match validateRules rules with
      | .error e => .error e
      | .ok _ => validate d
  | .parallel name branches catches next =>
    if pairwiseDisjoint (branches.map (fun b => b.2)) then
      match validateBranches branches with
      | .error e => .error e
      | .ok _ =>
        match validateCatches catches with
        | .error e => .error e
        | .ok _ => validate next
    else .error (.resultPathOverlap name)

/-- Validate every Choice rule target. -/
def validateRules : List (Pred × Node) → Except BuildError Unit
  | [] => .ok ()
  | (_, n) :: rest =>
    match validate n with
    | .error e => .error e
    | .ok _ => validateRules rest

/-- Validate every catch handler. -/
def validateCatches : List (List String × Node) → Except BuildError Unit
  | [] => .ok ()
  | (_, h) :: rest =>
    match validate h with
    | .error e => .error e
    | .ok _ => validateCatches rest

/-- Validate every Parallel branch. -/
def validateBranches : List (Node × Path) → Except BuildError Unit
  | [] => .ok ()
  | (b, _) :: rest =>
    match validate b with
    | .error e => .error e
    | .ok _ => validateBranches rest
end

/-- The context paths referenced by a task input selector. -/
def refPathsOfInputs : List (String × InVal) → List Path
  | [] => []
  | (_, .lit _) :: rest => refPathsOfInputs rest
  | (_, .ref p) :: rest => p :: refPathsOfInputs rest

mutual
/-- A conservative valid-input check: every context path referenced by
any task input selector anywhere in the graph is among the given key
set (intended: the keys of the initial run input). -/
def refsOk : Node → List Path → Bool
  | .succeed _, _ => true
  | .fail _ _ _, _ => true
  | .task _ inputs _ _ catches next, ks =>
    (refPathsOfInputs inputs).all (fun p => decide (p ∈ ks)) &&
      refsOkCatches catches ks && refsOk next ks
  | .choice _ rules dflt, ks =>
    refsOkRules rules ks &&
      (match dflt with
       | none => true
       | some d => refsOk d ks)
  | .parallel _ branches catches next, ks =>
    refsOkBranches branches ks && refsOkCatches catches ks && refsOk next ks

/-- Valid-input check for Choice rule targets. -/
def refsOkRules : List (Pred × Node) → List Path → Bool
  | [], _ => true
  | (_, n) :: rest, ks => refsOk n ks && refsOkRules rest ks

/-- Valid-input check for catch handlers. -/
def refsOkCatches : List (List String × Node) → List Path → Bool
  | [], _ => true
  | (_, h) :: rest, ks => refsOk h ks && refsOkCatches rest ks

/-- Valid-input check for Parallel branches. -/
def refsOkBranches : List (Node × Path) → List Path → Bool
  | [], _ => true
  | (b, _) :: rest, ks => refsOk b ks && refsOkBranches rest ks
end

/-- The result of asking the engine to start a run. -/
inductive StartResult where
  | started (o : Outcome)
  | notStarted (e : BuildError)

/-- Modelled from the spec: a run starts only on a graph that passed
build-time validation; a validation failure prevents the run from ever
starting (spec section 7). -/
def startRun (g : Node) (input : Ctx) : StartResult :=
  match validate g with
  | .error e => .notStarted e
  | .ok _ => .started (run g input)

/-! Basic lemmas about the execution-context operations. -/

theorem ctxGet_eq_none_iff (p : Path) (c : Ctx) :
    ctxGet p c = none ↔ p ∉ ctxKeys c := by
  induction c with
  | nil => simp [ctxGet, ctxKeys]
  | cons e rest ih =>
    obtain ⟨q, v⟩ := e
    by_cases hq : q = p
    · subst hq
      simp [ctxGet, ctxKeys]
    · have hpq : ¬p = q := fun h => hq h.symm
      simp only [ctxGet, if_neg hq, ctxKeys, List.map_cons, List.mem_cons]
      rw [ih]
      simp [ctxKeys, hpq]

theorem ctxGet_mem (p : Path) (c : Ctx) (h : p ∈ ctxKeys c) :
    ∃ v, ctxGet p c = some v := by
  cases hg : ctxGet p c with
  | none => exact absurd ((ctxGet_eq_none_iff p c).mp hg) (fun hn => hn h)
  | some v => exact ⟨v, rfl⟩

theorem ctxGetE_ok_iff (p : Path) (c : Ctx) (v : Val) :
    ctxGetE p c = .ok v ↔ ctxGet p c = some v := by
  cases hg : ctxGet p c <;> simp [ctxGetE, hg]

theorem ctxGetE_notFound_iff (p : Path) (c : Ctx) :
    ctxGetE p c = .error (.pathNotFound p) ↔ p ∉ ctxKeys c := by
  rw [← ctxGet_eq_none_iff]
  cases hg : ctxGet p c <;> simp [ctxGetE, hg]

theorem ctxGet_set_self (p : Path) (v : Val) (c : Ctx) :
    ctxGet p (ctxSet p v c) = some v := by
  simp [ctxGet, ctxSet]

theorem ctxKeys_set (p : Path) (v : Val) (c : Ctx) :
    ctxKeys (ctxSet p v c) = p :: ctxKeys c := rfl

theorem ctxKeys_mergeAt (sub : Ctx) (at_ : Path) (c : Ctx) :
    ctxKeys (ctxMergeAt sub at_ c) = subLeaves sub at_ ++ ctxKeys c := by
  simp [ctxKeys, ctxMergeAt, subLeaves]

theorem ctxGet_mergeAt_sub (sub : Ctx) (at_ : Path) (c : Ctx) (q : Path)
    (v : Val) (h : ctxGet q sub = some v) :
    ctxGet (at_ ++ q) (ctxMergeAt sub at_ c) = some v := by
  induction sub with
  | nil => simp [ctxGet] at h
  | cons e rest ih =>
    obtain ⟨q0, v0⟩ := e
    by_cases hq : q0 = q
    · subst hq
      simp [ctxGet] at h
      simp [ctxMergeAt, ctxGet, h]
    · have hne : at_ ++ q0 ≠ at_ ++ q := fun hc => hq (List.append_cancel_left hc)
      simp only [ctxGet, if_neg hq] at h
      simpa [ctxMergeAt, ctxGet, hq, if_neg hne] using ih h

theorem ctxGet_mergeAt_untouched (sub : Ctx) (at_ : Path) (c : Ctx) (r : Path)
    (h : r ∉ subLeaves sub at_) :
    ctxGet r (ctxMergeAt sub at_ c) = ctxGet r c := by
  induction sub with
  | nil => simp [ctxMergeAt]
  | cons e rest ih =>
    obtain ⟨q0, v0⟩ := e
    simp only [subLeaves, List.map_cons, List.mem_cons] at h
    push_neg at h
    have hne : at_ ++ q0 ≠ r := h.1.symm
    have := ih (by simpa [subLeaves] using h.2)
    simpa [ctxMergeAt, ctxGet, if_neg hne] using this

theorem firstCollision_eq_none_iff (leaves written : List Path) :
    firstCollision leaves written = none ↔ ∀ q ∈ leaves, q ∉ written := by
  induction leaves with
  | nil => simp [firstCollision]
  | cons q rest ih =>
    by_cases hq : q ∈ written
    · simp [firstCollision, hq]
    · simp [firstCollision, hq, ih]

theorem firstCollision_mem (leaves written : List Path) (q : Path)
    (h : firstCollision leaves written = some q) :
    q ∈ leaves ∧ q ∈ written := by
  induction leaves with
  | nil => simp [firstCollision] at h
  | cons q0 rest ih =>
    by_cases hq : q0 ∈ written
    · simp only [firstCollision, if_pos hq, Option.some_inj] at h
      subst h
      exact ⟨List.mem_cons_self _ _, hq⟩
    · simp only [firstCollision, if_neg hq] at h
      obtain ⟨h1, h2⟩ := ih h
      exact ⟨List.mem_cons_of_mem _ h1, h2⟩

/-- C6: the ExecutionContext operations satisfy their contract: get
returns the stored value and fails with PathNotFound exactly when the
path is absent; set succeeds on any path; the fan-in merge writes the
whole subtree and fails with PathCollision exactly when some leaf under
the target path was already set by a different branch of the same
Parallel fan-in (both directions: a collision forces the failure, and a
failure names a real collision); and no operation deletes an existing
key. -/
theorem C6_ctx_operations_contract :
    (∀ (p : Path) (c : Ctx),
      (p ∈ ctxKeys c → ∃ v, ctxGet p c = some v ∧ ctxGetE p c = .ok v) ∧
      (p ∉ ctxKeys c → ctxGetE p c = .error (.pathNotFound p))) ∧
    (∀ (p : Path) (v : Val) (c : Ctx), ctxGet p (ctxSet p v c) = some v) ∧
    (∀ (sub : Ctx) (at_ : Path) (written : List Path) (c : Ctx),
      ((∀ q ∈ subLeaves sub at_, q ∉ written) →
        ctxMergeFanIn sub at_ written c =
          .ok (ctxMergeAt sub at_ c, subLeaves sub at_ ++ written)) ∧
      ((∃ q ∈ subLeaves sub at_, q ∈ written) →
        ∃ q, ctxMergeFanIn sub at_ written c = .error (.pathCollision q) ∧
          q ∈ subLeaves sub at_ ∧ q ∈ written) ∧
      (∀ q, ctxMergeFanIn sub at_ written c = .error (.pathCollision q) →
        q ∈ subLeaves sub at_ ∧ q ∈ written) ∧
      (∀ q v, ctxGet q sub = some v →
        ctxGet (at_ ++ q) (ctxMergeAt sub at_ c) = some v)) ∧
    (∀ (p : Path) (c : Ctx), p ∈ ctxKeys c →
      (∀ q v, p ∈ ctxKeys (ctxSet q v c)) ∧
      (∀ sub at_, p ∈ ctxKeys (ctxMergeAt sub at_ c))) := by
  refine ⟨?_, ?_, ?_, ?_⟩
  · intro p c
    constructor
    · intro h
      obtain ⟨v, hv⟩ := ctxGet_mem p c h
      exact ⟨v, hv, (ctxGetE_ok_iff p c v).mpr hv⟩
    · intro h
      exact (ctxGetE_notFound_iff p c).mpr h
  · exact ctxGet_set_self
  · intro sub at_ written c
    refine ⟨?_, ?_, ?_, ?_⟩
    · intro h
      have hn : firstCollision (subLeaves sub at_) written = none :=
        (firstCollision_eq_none_iff _ _).mpr h
      simp [ctxMergeFanIn, hn]
    · rintro ⟨q0, hq0, hw0⟩
      cases hf : firstCollision (subLeaves sub at_) written with
      | none =>
        exact absurd hw0 ((firstCollision_eq_none_iff _ _).mp hf q0 hq0)
      | some q =>
        obtain ⟨hql, hqw⟩ := firstCollision_mem _ _ _ hf
        exact ⟨q, by simp [ctxMergeFanIn, hf], hql, hqw⟩
    · intro q h
      cases hf : firstCollision (subLeaves sub at_) written with
      | none => simp [ctxMergeFanIn, hf] at h
      | some q0 =>
        simp only [ctxMergeFanIn, hf, Except.error.injEq,
          CtxError.pathCollision.injEq] at h
        subst h
        exact firstCollision_mem _ _ _ hf
    · intro q v h
      exact ctxGet_mergeAt_sub sub at_ c q v h
  · intro p c h
    constructor
    · intro q v
      exact List.mem_cons_of_mem _ h
    · intro sub at_
      rw [ctxKeys_mergeAt]
      exact List.mem_append_right _ h

/-- C6 witness: the contract evaluated at concrete inputs, including a
fan-in collision that is forced to fail with PathCollision. -/
theorem C6_ctx_operations_contract_witness :
    ctxGet ["a"] (ctxSet ["a"] (.vnum 3) []) = some (.vnum 3) ∧
    ctxGetE ["b"] [(["a"], Val.vnum 3)] = .error (.pathNotFound ["b"]) ∧
    (∃ q, ctxMergeFanIn [(["k"], Val.vnum 1)] ["p"] [["p", "k"]] [] =
      .error (.pathCollision q) ∧ q ∈ subLeaves [(["k"], Val.vnum 1)] ["p"] ∧
      q ∈ [["p", "k"]]) := by
  refine ⟨C6_ctx_operations_contract.2.1 _ _ _, ?_, ?_⟩
  · exact (C6_ctx_operations_contract.1 ["b"] [(["a"], Val.vnum 3)]).2
      (by decide)
  · exact (C6_ctx_operations_contract.2.2.1 [(["k"], Val.vnum 1)] ["p"]
      [["p", "k"]] []).2.1 ⟨["p", "k"], by decide, by decide⟩

/-! Lemmas relating the executor's inlined rule and catch walks to the
declarative selection functions. -/

theorem runRules_eq (c : Ctx) (rules : List (Pred × Node)) :
    runRules c rules = (selectRule c rules).map (fun n => run n c) := by
  induction rules with
  | nil => rfl
  | cons r rest ih =>
    obtain ⟨p, n⟩ := r
    by_cases hp : evalPred p c
    · simp [runRules, selectRule, hp]
    · simp [runRules, selectRule, hp, ih]

theorem runCatches_eq (k : ErrorKind) (c : Ctx)
    (catches : List (List String × Node)) :
    runCatches k c catches = (matchCatch k catches).map (fun h => run h c) := by
  induction catches with
  | nil => rfl
  | cons r rest ih =>
    obtain ⟨pats, h⟩ := r
    by_cases hk : k ∈ pats
    · simp [runCatches, matchCatch, hk]
    · simp [runCatches, matchCatch, hk, ih]

theorem selectRule_first (c : Ctx) (pre post : List (Pred × Node)) (p : Pred)
    (tgt : Node) (hpre : ∀ r ∈ pre, evalPred r.1 c = false)
    (hp : evalPred p c = true) :
    selectRule c (pre ++ (p, tgt) :: post) = some tgt := by
  induction pre with
  | nil => simp [selectRule, hp]
  | cons r rest ih =>
    obtain ⟨rp, rn⟩ := r
    have hr : evalPred rp c = false := hpre (rp, rn) (List.mem_cons_self _ _)
    simp only [List.cons_append, selectRule, hr, Bool.false_eq_true, if_false]
    exact ih (fun x hx => hpre x (List.mem_cons_of_mem _ hx))

theorem selectRule_none (c : Ctx) (rules : List (Pred × Node))
    (h : ∀ r ∈ rules, evalPred r.1 c = false) :
    selectRule c rules = none := by
  induction rules with
  | nil => rfl
  | cons r rest ih =>
    obtain ⟨rp, rn⟩ := r
    have hr : evalPred rp c = false := h (rp, rn) (List.mem_cons_self _ _)
    simp only [selectRule, hr, Bool.false_eq_true, if_false]
    exact ih (fun x hx => h x (List.mem_cons_of_mem _ hx))

theorem matchCatch_first (k : ErrorKind) (pre post : List (List String × Node))
    (pats : List String) (h : Node)
    (hpre : ∀ r ∈ pre, k ∉ r.1) (hk : k ∈ pats) :
    matchCatch k (pre ++ (pats, h) :: post) = some h := by
  induction pre with
  | nil => simp [matchCatch, hk]
  | cons r rest ih =>
    obtain ⟨rpats, rh⟩ := r
    have hr : rpats.contains k = false := by
      simp [hpre (rpats, rh) (List.mem_cons_self _ _)]
    simp only [List.cons_append, matchCatch, hr, Bool.false_eq_true, if_false]
    exact ih (fun x hx => hpre x (List.mem_cons_of_mem _ hx))

theorem matchCatch_none (k : ErrorKind) (catches : List (List String × Node))
    (h : ∀ r ∈ catches, k ∉ r.1) :
    matchCatch k catches = none := by
  induction catches with
  | nil => rfl
  | cons r rest ih =>
    obtain ⟨rpats, rh⟩ := r
    have hr : rpats.contains k = false := by
      simp [h (rpats, rh) (List.mem_cons_self _ _)]
    simp only [matchCatch, hr, Bool.false_eq_true, if_false]
    exact ih (fun x hx => h x (List.mem_cons_of_mem _ hx))

theorem run_choice_match (name : String) (rules : List (Pred × Node))
    (dflt : Option Node) (c : Ctx) (tgt : Node)
    (h : selectRule c rules = some tgt) :
    run (.choice name rules dflt) c =
      prependLog [(name, .succeeded)] (run tgt c) := by
  simp [run, runRules_eq, h, choiceFinish]

theorem run_choice_default (name : String) (rules : List (Pred × Node))
    (d : Node) (c : Ctx) (h : selectRule c rules = none) :
    run (.choice name rules (some d)) c =
      prependLog [(name, .succeeded)] (run d c) := by
  simp [run, runRules_eq, h, choiceFinish, runDflt]

theorem runBranches_eq (c : Ctx) (bs : List (Node × Path)) :
    runBranches bs c = bs.map (fun b => (run b.1 c, b.2)) := by
  induction bs with
  | nil => rfl
  | cons b rest ih =>
    obtain ⟨n, p⟩ := b
    simp [runBranches, ih]

/-- C1: a Choice node evaluates its (predicate, next-node) rules in
declaration order over the context, the first matching predicate
determines the next node, and with no match the mandatory default next
node is taken; a Choice constructed without a default is rejected at
graph-build time with MissingDefaultBranch, before any run starts. -/
theorem C1_choice_first_match_and_default :
    (∀ (name : String) (c : Ctx) (pre post : List (Pred × Node)) (p : Pred)
      (tgt : Node) (dflt : Option Node),
      (∀ r ∈ pre, evalPred r.1 c = false) → evalPred p c = true →
      run (.choice name (pre ++ (p, tgt) :: post) dflt) c =
        prependLog [(name, .succeeded)] (run tgt c)) ∧
    (∀ (name : String) (c : Ctx) (rules : List (Pred × Node)) (d : Node),
      (∀ r ∈ rules, evalPred r.1 c = false) →
      run (.choice name rules (some d)) c =
        prependLog [(name, .succeeded)] (run d c)) ∧
    (∀ (name : String) (rules : List (Pred × Node)),
      validate (.choice name rules none) =
        .error (.missingDefaultBranch name)) ∧
    (∀ (name : String) (rules : List (Pred × Node)) (input : Ctx),
      startRun (.choice name rules none) input =
        .notStarted (.missingDefaultBranch name)) := by
  refine ⟨?_, ?_, ?_, ?_⟩
  · intro name c pre post p tgt dflt hpre hp
    exact run_choice_match name _ dflt c tgt
      (selectRule_first c pre post p tgt hpre hp)
  · intro name c rules d hnone
    exact run_choice_default name rules d c (selectRule_none c rules hnone)
  · intro name rules
    simp [validate]
  · intro name rules input
    simp [startRun, validate]

/-- C1 witness: three ordered numeric-threshold rules plus a default;
on a context with value 7 the first rule fails, the second matches and
its target is taken; the defaultless variant is rejected at build
time. -/
theorem C1_choice_first_match_and_default_witness :
    run (.choice "Choice"
        [(.numLt ["v"] 5, .succeed "A"), (.numLt ["v"] 10, .succeed "B"),
         (.numLt ["v"] 20, .succeed "C")]
        (some (.fail "F" "States.Error" "no match"))) [(["v"], .vnum 7)] =
      prependLog [("Choice", .succeeded)] (run (.succeed "B") [(["v"], .vnum 7)]) := by
  exact C1_choice_first_match_and_default.1 "Choice" [(["v"], .vnum 7)]
    [(.numLt ["v"] 5, .succeed "A")] [(.numLt ["v"] 20, .succeed "C")]
    (.numLt ["v"] 10) (.succeed "B") (some (.fail "F" "States.Error" "no match"))
    (by decide) (by decide)

/-! The 4-node scenario sequence of spec section 8. -/

/-- The scenario graph of spec section 8: Create, Task, Choice with the
rule value below 10 going to Succeed, default going to Fail. -/
def scenarioGraph : Node :=
  .task "Create" [] (fun _ => .ok []) ["CreateResults"] []
    (.task "Task" [] (fun _ => .ok []) ["TaskResults"] []
      (.choice "Choice" [(.numLt ["value"] 10, .succeed "Succeed")]
        (some (.fail "Fail" "States.Error" "value not below threshold"))))

/-- C7: on input value 5 the scenario sequence terminates in Succeeded;
on input value 15 no Choice rule matches, the default branch is taken
and the run terminates in Failed through the Fail node. -/
theorem C7_scenario_runs :
    (run scenarioGraph [(["value"], .vnum 5)]).result =
      .succeeded [(["value"], .vnum 5)] ∧
    (run scenarioGraph [(["value"], .vnum 5)]).log =
      [("Create", .succeeded), ("Task", .succeeded), ("Choice", .succeeded),
       ("Succeed", .succeeded)] ∧
    (run scenarioGraph [(["value"], .vnum 15)]).result =
      .failed ⟨"States.Error", "value not below threshold"⟩ ∧
    (run scenarioGraph [(["value"], .vnum 15)]).log =
      [("Create", .succeeded), ("Task", .succeeded), ("Choice", .succeeded),
       ("Fail", .failed ⟨"States.Error", "value not below threshold"⟩)] := by
  decide

/-! Sequences: a chain of Task steps run in declared order. -/

/-- A Task step description used to build a Sequence. -/
structure TaskSpec where
  name : String
  inputs : List (String × InVal)
  act : Ctx → Except Err Ctx
  resPath : Path

/-- Build a Sequence: each step is a Task whose next node is the rest
of the chain, ending in the given terminal node. -/
def mkSeq : List TaskSpec → Node → Node
  | [], fin => fin
  | t :: ts, fin => .task t.name t.inputs t.act t.resPath [] (mkSeq ts fin)

/-- Every step of the sequence resolves its inputs and succeeds when
run on the context as evolved by its predecessors. -/
def seqOk : List TaskSpec → Ctx → Bool
  | [], _ => true
  | t :: ts, c =>
    match resolveInputs t.inputs c with
    | .error _ => false
    | .ok payload =>
      match t.act payload with
      | .error _ => false
      | .ok out => seqOk ts (ctxMergeAt out t.resPath c)

/-- The declarative final context of a sequence: the input context with
each step's result merged in at its result path, in declared order. -/
def seqFold : List TaskSpec → Ctx → Ctx
  | [], c => c
  | t :: ts, c =>
    match resolveInputs t.inputs c with
    | .error _ => c
    | .ok payload =>
      match t.act payload with
      | .error _ => c
      | .ok out => seqFold ts (ctxMergeAt out t.resPath c)

/-- C5: a Sequence executes its steps in strict declared order and its
final context is the input context with each step's result merged at
its result path in that order; when two steps write the same path the
later merge shadows the earlier one, so the later step's value is the
one found in the final context. -/
theorem C5_sequence_order_and_merge :
    (∀ (ts : List TaskSpec) (fin : String) (c : Ctx), seqOk ts c = true →
      run (mkSeq ts (.succeed fin)) c =
        { result := .succeeded (seqFold ts c)
          log := ts.map (fun t => (t.name, .succeeded)) ++
            [(fin, .succeeded)] }) ∧
    (∀ (sub1 sub2 c : Ctx) (p q : Path) (v : Val), ctxGet q sub2 = some v →
      ctxGet (p ++ q) (ctxMergeAt sub2 p (ctxMergeAt sub1 p c)) = some v) := by
  constructor
  · intro ts fin c h
    induction ts generalizing c with
    | nil => simp [mkSeq, run, seqFold]
    | cons t ts ih =>
      simp only [seqOk] at h
      cases hr : resolveInputs t.inputs c with
      | error e =>
        simp only [hr] at h
        exact Bool.noConfusion h
      | ok payload =>
        simp only [hr] at h
        cases ha : t.act payload with
        | error e =>
          simp only [ha] at h
          exact Bool.noConfusion h
        | ok out =>
          simp only [ha] at h
          simp only [mkSeq, run, hr, ha, seqFold]
          rw [ih _ h]
          simp [prependLog]
  · intro sub1 sub2 c p q v h
    exact ctxGet_mergeAt_sub sub2 p (ctxMergeAt sub1 p c) q v h

/-- C5 witness: two steps writing the same result path; the run
succeeds with the folded context, in which the later value 2 shadows
the earlier value 1. -/
theorem C5_sequence_order_and_merge_witness :
    run (mkSeq [⟨"S1", [], fun _ => .ok [(["k"], .vnum 1)], ["out"]⟩,
        ⟨"S2", [], fun _ => .ok [(["k"], .vnum 2)], ["out"]⟩] (.succeed "Done"))
      [] =
      { result := .succeeded (seqFold
          [⟨"S1", [], fun _ => .ok [(["k"], .vnum 1)], ["out"]⟩,
           ⟨"S2", [], fun _ => .ok [(["k"], .vnum 2)], ["out"]⟩] [])
        log := [("S1", .succeeded), ("S2", .succeeded), ("Done", .succeeded)] } ∧
    ctxGet ["out", "k"] (seqFold
        [⟨"S1", [], fun _ => .ok [(["k"], .vnum 1)], ["out"]⟩,
         ⟨"S2", [], fun _ => .ok [(["k"], .vnum 2)], ["out"]⟩] []) =
      some (.vnum 2) := by
  constructor
  · exact C5_sequence_order_and_merge.1
      [⟨"S1", [], fun _ => .ok [(["k"], .vnum 1)], ["out"]⟩,
       ⟨"S2", [], fun _ => .ok [(["k"], .vnum 2)], ["out"]⟩] "Done" [] (by decide)
  · decide

/-! Parallel join: disjoint-path reasoning. -/

theorem pathsDisjoint_elim (p q : Path) (h : pathsDisjoint p q = true) :
    p.isPrefixOf q = false ∧ q.isPrefixOf p = false := by
  simp only [pathsDisjoint, Bool.and_eq_true, Bool.not_eq_true'] at h
  exact h

theorem pathsDisjoint_symm (p q : Path) (h : pathsDisjoint p q = true) :
    pathsDisjoint q p = true := by
  simp only [pathsDisjoint, Bool.and_eq_true] at h ⊢
  exact ⟨h.2, h.1⟩

theorem isPrefixOf_append_self (p s : Path) : p.isPrefixOf (p ++ s) = true :=
  List.isPrefixOf_iff_prefix.mpr (List.prefix_append p s)

theorem pathsDisjoint_append_ne (p q : Path) (h : pathsDisjoint p q = true)
    (a b : Path) : p ++ a ≠ q ++ b := by
  intro hc
  obtain ⟨h1, h2⟩ := pathsDisjoint_elim p q h
  have hp1 : p <+: q ++ b := hc ▸ List.prefix_append p a
  have hp2 : q <+: q ++ b := List.prefix_append q b
  rcases List.prefix_or_prefix_of_prefix hp1 hp2 with hp | hp
  · rw [← List.isPrefixOf_iff_prefix, h1] at hp
    exact Bool.noConfusion hp
  · rw [← List.isPrefixOf_iff_prefix, h2] at hp
    exact Bool.noConfusion hp

theorem disjoint_not_prefixOf_append (p x2 : Path)
    (h : pathsDisjoint p x2 = true) (q : Path) :
    x2.isPrefixOf (p ++ q) = false := by
  obtain ⟨h1, h2⟩ := pathsDisjoint_elim p x2 h
  cases hx : x2.isPrefixOf (p ++ q) with
  | false => rfl
  | true =>
    exfalso
    have hp1 : x2 <+: p ++ q := List.isPrefixOf_iff_prefix.mp hx
    have hp2 : p <+: p ++ q := List.prefix_append p q
    rcases List.prefix_or_prefix_of_prefix hp1 hp2 with hp | hp
    · rw [← List.isPrefixOf_iff_prefix, h2] at hp
      exact Bool.noConfusion hp
    · rw [← List.isPrefixOf_iff_prefix, h1] at hp
      exact Bool.noConfusion hp

theorem pairwiseDisjoint_cons (p : Path) (ps : List Path)
    (h : pairwiseDisjoint (p :: ps) = true) :
    (∀ q ∈ ps, pathsDisjoint p q = true) ∧ pairwiseDisjoint ps = true := by
  simp only [pairwiseDisjoint, Bool.and_eq_true, List.all_eq_true] at h
  exact h

theorem mem_subLeaves_self_iff (sub : Ctx) (at_ q : Path) :
    at_ ++ q ∈ subLeaves sub at_ ↔ q ∈ ctxKeys sub := by
  simp only [subLeaves, ctxKeys, List.mem_map]
  constructor
  · rintro ⟨e, he, heq⟩
    exact ⟨e, he, List.append_cancel_left heq⟩
  · rintro ⟨e, he, heq⟩
    exact ⟨e, he, by rw [heq]⟩


/-- The declarative join of succeeded branch results: each branch
subtree merged at its declared path, in branch declaration order. -/
def joinFold : List (Outcome × Path) → Ctx → Ctx
  | [], c => c
  | (o, p) :: rest, c =>
    match o.result with
    | .succeeded bc => joinFold rest (ctxMergeAt bc p c)
    | _ => joinFold rest c

/-! Constructor-level unfolding lemmas for the fan-in helpers, stated
for an outcome with a known result. -/

theorem firstBranchErr_cons_succ (o : Outcome) (p : Path)
    (rest : List (Outcome × Path)) (bc : Ctx)
    (hbc : o.result = .succeeded bc) :
    firstBranchErr ((o, p) :: rest) = firstBranchErr rest := by
  obtain ⟨res, lg⟩ := o
  simp only [Outcome.result] at hbc
  subst hbc
  rfl

theorem firstBranchErr_cons_failed (o : Outcome) (p : Path)
    (rest : List (Outcome × Path)) (e : Err) (hbc : o.result = .failed e) :
    firstBranchErr ((o, p) :: rest) = some (.inr e) := by
  obtain ⟨res, lg⟩ := o
  simp only [Outcome.result] at hbc
  subst hbc
  rfl

theorem joinAllAux_cons_succ (o : Outcome) (p : Path)
    (rest : List (Outcome × Path)) (written : List Path) (c : Ctx) (bc : Ctx)
    (hbc : o.result = .succeeded bc) :
    joinAllAux ((o, p) :: rest) written c =
      match ctxMergeFanIn bc p written c with
      | .error ce => .error ce
      | .ok cw => joinAllAux rest cw.2 cw.1 := by
  obtain ⟨res, lg⟩ := o
  simp only [Outcome.result] at hbc
  subst hbc
  cases hm : ctxMergeFanIn bc p written c with
  | error ce => simp [joinAllAux, hm]
  | ok cw => simp [joinAllAux, hm]

theorem joinFold_cons_succ (o : Outcome) (p : Path)
    (rest : List (Outcome × Path)) (c : Ctx) (bc : Ctx)
    (hbc : o.result = .succeeded bc) :
    joinFold ((o, p) :: rest) c = joinFold rest (ctxMergeAt bc p c) := by
  obtain ⟨res, lg⟩ := o
  simp only [Outcome.result] at hbc
  subst hbc
  rfl

theorem joinFold_cons_failed (o : Outcome) (p : Path)
    (rest : List (Outcome × Path)) (c : Ctx) (e : Err)
    (hbc : o.result = .failed e) :
    joinFold ((o, p) :: rest) c = joinFold rest c := by
  obtain ⟨res, lg⟩ := o
  simp only [Outcome.result] at hbc
  subst hbc
  simp [joinFold]

theorem joinFold_cons_ctxErr (o : Outcome) (p : Path)
    (rest : List (Outcome × Path)) (c : Ctx) (e : CtxError)
    (hbc : o.result = .ctxErr e) :
    joinFold ((o, p) :: rest) c = joinFold rest c := by
  obtain ⟨res, lg⟩ := o
  simp only [Outcome.result] at hbc
  subst hbc
  simp [joinFold]

/-- All branch outcomes succeeded, hence no first branch error. -/
theorem firstBranchErr_none (rs : List (Outcome × Path))
    (h : ∀ r ∈ rs, ∃ bc, r.1.result = .succeeded bc) :
    firstBranchErr rs = none := by
  induction rs with
  | nil => rfl
  | cons r rest ih =>
    obtain ⟨o, p⟩ := r
    obtain ⟨bc, hbc⟩ := h (o, p) (List.mem_cons_self _ _)
    rw [firstBranchErr_cons_succ o p rest bc hbc]
    exact ih (fun x hx => h x (List.mem_cons_of_mem _ hx))

theorem joinAllAux_eq_joinFold (rs : List (Outcome × Path)) :
    ∀ (written : List Path) (c : Ctx),
    (∀ r ∈ rs, ∃ bc, r.1.result = .succeeded bc) →
    pairwiseDisjoint (rs.map (fun r => r.2)) = true →
    (∀ q ∈ written, ∀ r ∈ rs, ∀ s : Path, q ≠ r.2 ++ s) →
    joinAllAux rs written c = .ok (joinFold rs c) := by
  induction rs with
  | nil => intro written c _ _ _; rfl
  | cons r rest ih =>
    intro written c hsucc hdisj hw
    obtain ⟨o, p⟩ := r
    obtain ⟨bc, hbc⟩ := hsucc (o, p) (List.mem_cons_self _ _)
    obtain ⟨hd1, hd2⟩ := pairwiseDisjoint_cons p (rest.map (fun r => r.2))
      (by simpa using hdisj)
    have hcoll : firstCollision (subLeaves bc p) written = none := by
      rw [firstCollision_eq_none_iff]
      intro q hq hqw
      simp only [subLeaves, List.mem_map] at hq
      obtain ⟨e, _, heq⟩ := hq
      exact hw q hqw (o, p) (List.mem_cons_self _ _) e.1 heq.symm
    rw [joinAllAux_cons_succ o p rest written c bc hbc,
      joinFold_cons_succ o p rest c bc hbc]
    simp only [ctxMergeFanIn, hcoll]
    apply ih
    · exact fun x hx => hsucc x (List.mem_cons_of_mem _ hx)
    · exact hd2
    · intro q hq x hx s
      rcases List.mem_append.mp hq with hql | hqr
      · simp only [subLeaves, List.mem_map] at hql
        obtain ⟨e, _, heq⟩ := hql
        rw [← heq]
        exact pathsDisjoint_append_ne p x.2
          (hd1 x.2 (List.mem_map.mpr ⟨x, hx, rfl⟩)) e.1 s
      · exact hw q hqr x (List.mem_cons_of_mem _ hx) s

theorem joinFold_untouched (rs : List (Outcome × Path)) :
    ∀ (c : Ctx) (r : Path),
    (∀ x ∈ rs, x.2.isPrefixOf r = false) →
    ctxGet r (joinFold rs c) = ctxGet r c := by
  induction rs with
  | nil => intro c r _; rfl
  | cons x0 rest ih =>
    intro c r h
    obtain ⟨o, p⟩ := x0
    have hp : p.isPrefixOf r = false := h (o, p) (List.mem_cons_self _ _)
    have hrest : ∀ x ∈ rest, x.2.isPrefixOf r = false :=
      fun x hx => h x (List.mem_cons_of_mem _ hx)
    cases hres : o.result with
    | succeeded bc =>
      rw [joinFold_cons_succ o p rest c bc hres, ih (ctxMergeAt bc p c) r hrest]
      apply ctxGet_mergeAt_untouched
      intro hmem
      simp only [subLeaves, List.mem_map] at hmem
      obtain ⟨e, _, heq⟩ := hmem
      rw [← heq, isPrefixOf_append_self] at hp
      exact Bool.noConfusion hp
    | failed e =>
      rw [joinFold_cons_failed o p rest c e hres]
      exact ih c r hrest
    | ctxErr e =>
      rw [joinFold_cons_ctxErr o p rest c e hres]
      exact ih c r hrest

theorem joinFold_get_sub (rs : List (Outcome × Path)) :
    ∀ (c : Ctx) (o : Outcome) (p : Path) (bc : Ctx) (q : Path) (v : Val),
    (o, p) ∈ rs → o.result = .succeeded bc →
    pairwiseDisjoint (rs.map (fun r => r.2)) = true →
    ctxGet q bc = some v →
    ctxGet (p ++ q) (joinFold rs c) = some v := by
  induction rs with
  | nil => intro c o p bc q v hmem; exact absurd hmem (List.not_mem_nil _)
  | cons x0 rest ih =>
    intro c o p bc q v hmem hbc hdisj hv
    obtain ⟨o0, p0⟩ := x0
    obtain ⟨hd1, hd2⟩ := pairwiseDisjoint_cons p0 (rest.map (fun r => r.2))
      (by simpa using hdisj)
    rcases List.mem_cons.mp hmem with heq | hmem'
    · have ho : o0 = o := (Prod.mk.injEq .. ▸ heq.symm).1
      have hp : p0 = p := (Prod.mk.injEq .. ▸ heq.symm).2
      subst ho hp
      rw [joinFold_cons_succ o0 p0 rest c bc hbc]
      rw [joinFold_untouched rest (ctxMergeAt bc p0 c) (p0 ++ q) ?_]
      · exact ctxGet_mergeAt_sub bc p0 c q v hv
      · intro x hx
        exact disjoint_not_prefixOf_append p0 x.2
          (hd1 x.2 (List.mem_map.mpr ⟨x, hx, rfl⟩)) q
    · cases hres : o0.result with
      | succeeded bc0 =>
        rw [joinFold_cons_succ o0 p0 rest c bc0 hres]
        exact ih (ctxMergeAt bc0 p0 c) o p bc q v hmem' hbc hd2 hv
      | failed e =>
        rw [joinFold_cons_failed o0 p0 rest c e hres]
        exact ih c o p bc q v hmem' hbc hd2 hv
      | ctxErr e =>
        rw [joinFold_cons_ctxErr o0 p0 rest c e hres]
        exact ih c o p bc q v hmem' hbc hd2 hv

theorem joinFold_get_absent (rs : List (Outcome × Path)) :
    ∀ (c : Ctx) (o : Outcome) (p : Path) (bc : Ctx) (q : Path),
    (o, p) ∈ rs → o.result = .succeeded bc →
    pairwiseDisjoint (rs.map (fun r => r.2)) = true →
    ctxGet q bc = none →
    ctxGet (p ++ q) (joinFold rs c) = ctxGet (p ++ q) c := by
  induction rs with
  | nil => intro c o p bc q hmem; exact absurd hmem (List.not_mem_nil _)
  | cons x0 rest ih =>
    intro c o p bc q hmem hbc hdisj hq
    obtain ⟨o0, p0⟩ := x0
    obtain ⟨hd1, hd2⟩ := pairwiseDisjoint_cons p0 (rest.map (fun r => r.2))
      (by simpa using hdisj)
    rcases List.mem_cons.mp hmem with heq | hmem'
    · have ho : o0 = o := (Prod.mk.injEq .. ▸ heq.symm).1
      have hp : p0 = p := (Prod.mk.injEq .. ▸ heq.symm).2
      subst ho hp
      rw [joinFold_cons_succ o0 p0 rest c bc hbc]
      rw [joinFold_untouched rest (ctxMergeAt bc p0 c) (p0 ++ q) ?_]
      · apply ctxGet_mergeAt_untouched
        rw [mem_subLeaves_self_iff]
        intro hk
        obtain ⟨v, hv⟩ := ctxGet_mem q bc hk
        rw [hv] at hq
        exact Option.noConfusion hq
      · intro x hx
        exact disjoint_not_prefixOf_append p0 x.2
          (hd1 x.2 (List.mem_map.mpr ⟨x, hx, rfl⟩)) q
    · have hstep : ∀ c1 : Ctx, ctxGet (p ++ q) (joinFold rest c1) =
          ctxGet (p ++ q) c1 :=
        fun c1 => ih c1 o p bc q hmem' hbc hd2 hq
      cases hres : o0.result with
      | succeeded bc0 =>
        rw [joinFold_cons_succ o0 p0 rest c bc0 hres,
          hstep (ctxMergeAt bc0 p0 c)]
        apply ctxGet_mergeAt_untouched
        intro hmem0
        simp only [subLeaves, List.mem_map] at hmem0
        obtain ⟨e, _, heq0⟩ := hmem0
        have hdp : pathsDisjoint p p0 = true := by
          apply pathsDisjoint_symm
          apply hd1
          exact List.mem_map.mpr ⟨(o, p), hmem', rfl⟩
        exact pathsDisjoint_append_ne p0 p (pathsDisjoint_symm p p0 hdp) e.1 q heq0
      | failed e =>
        rw [joinFold_cons_failed o0 p0 rest c e hres]
        exact hstep c
      | ctxErr e =>
        rw [joinFold_cons_ctxErr o0 p0 rest c e hres]
        exact hstep c

/-! Unfolding lemmas for the executor on each node shape. -/

theorem run_task_ok (name : String) (inputs : List (String × InVal))
    (act : Ctx → Except Err Ctx) (resPath : Path)
    (catches : List (List String × Node)) (next : Node) (c payload out : Ctx)
    (hr : resolveInputs inputs c = .ok payload) (ha : act payload = .ok out) :
    run (.task name inputs act resPath catches next) c =
      prependLog [(name, .succeeded)] (run next (ctxMergeAt out resPath c)) := by
  simp [run, hr, ha]

theorem run_task_caught (name : String) (inputs : List (String × InVal))
    (act : Ctx → Except Err Ctx) (resPath : Path)
    (catches : List (List String × Node)) (next : Node) (c payload : Ctx)
    (e : Err) (h : Node) (hr : resolveInputs inputs c = .ok payload)
    (ha : act payload = .error e) (hc : matchCatch e.kind catches = some h) :
    run (.task name inputs act resPath catches next) c =
      prependLog [(name, .failed e), (name, .caught e)] (run h c) := by
  simp [run, hr, ha, runCatches_eq, hc, taskFailFinish]

theorem run_task_uncaught (name : String) (inputs : List (String × InVal))
    (act : Ctx → Except Err Ctx) (resPath : Path)
    (catches : List (List String × Node)) (next : Node) (c payload : Ctx)
    (e : Err) (hr : resolveInputs inputs c = .ok payload)
    (ha : act payload = .error e) (hc : matchCatch e.kind catches = none) :
    run (.task name inputs act resPath catches next) c =
      { result := .failed e, log := [(name, .failed e)] } := by
  simp [run, hr, ha, runCatches_eq, hc, taskFailFinish]

theorem run_parallel_eq (name : String) (branches : List (Node × Path))
    (catches : List (List String × Node)) (next : Node) (c : Ctx) :
    run (.parallel name branches catches next) c =
      parallelStep name (runBranches branches c)
        (fun k => runCatches k c catches) (fun c' => run next c') c := by
  simp only [run]

theorem parallelStep_caught (name : String) (rs : List (Outcome × Path))
    (catchRun : ErrorKind → Option Outcome) (nextRun : Ctx → Outcome)
    (c : Ctx) (e : Err) (o : Outcome)
    (hfb : firstBranchErr rs = some (.inr e)) (hc : catchRun e.kind = some o) :
    parallelStep name rs catchRun nextRun c =
      prependLog (branchLogs rs ++ [(name, .failed e), (name, .caught e)]) o := by
  simp [parallelStep, hfb, hc]

theorem parallelStep_uncaught (name : String) (rs : List (Outcome × Path))
    (catchRun : ErrorKind → Option Outcome) (nextRun : Ctx → Outcome)
    (c : Ctx) (e : Err)
    (hfb : firstBranchErr rs = some (.inr e)) (hc : catchRun e.kind = none) :
    parallelStep name rs catchRun nextRun c =
      { result := .failed e, log := branchLogs rs ++ [(name, .failed e)] } := by
  simp [parallelStep, hfb, hc]

theorem parallelStep_all_ok (name : String) (rs : List (Outcome × Path))
    (catchRun : ErrorKind → Option Outcome) (nextRun : Ctx → Outcome)
    (c c' : Ctx) (hfb : firstBranchErr rs = none)
    (hj : joinAll rs c = .ok c') :
    parallelStep name rs catchRun nextRun c =
      prependLog (branchLogs rs ++ [(name, .succeeded)]) (nextRun c') := by
  simp [parallelStep, hfb, hj]

/-- C3: when every branch of a Parallel succeeds, each branch has run
on an independent copy of the fork-time context, the joined parent
context carries exactly the union of the branch result subtrees at
their declared disjoint paths (a value is present under a branch path
exactly when that branch wrote it, and paths under no branch path are
unchanged), and control proceeds to the declared next node. -/
theorem C3_parallel_fork_join (name : String) (branches : List (Node × Path))
    (catches : List (List String × Node)) (next : Node) (c : Ctx)
    (hdisj : pairwiseDisjoint (branches.map (fun b => b.2)) = true)
    (hsucc : ∀ b ∈ branches, ∃ bc, (run b.1 c).result = .succeeded bc) :
    runBranches branches c = branches.map (fun b => (run b.1 c, b.2)) ∧
    run (.parallel name branches catches next) c =
      prependLog (branchLogs (runBranches branches c) ++ [(name, .succeeded)])
        (run next (joinFold (runBranches branches c) c)) ∧
    (∀ b ∈ branches, ∀ bc, (run b.1 c).result = .succeeded bc →
      (∀ q v, ctxGet q bc = some v →
        ctxGet (b.2 ++ q) (joinFold (runBranches branches c) c) = some v) ∧
      (∀ q, ctxGet q bc = none →
        ctxGet (b.2 ++ q) (joinFold (runBranches branches c) c) =
          ctxGet (b.2 ++ q) c)) ∧
    (∀ r : Path, (∀ b ∈ branches, b.2.isPrefixOf r = false) →
      ctxGet r (joinFold (runBranches branches c) c) = ctxGet r c) := by
  have hrb : runBranches branches c = branches.map (fun b => (run b.1 c, b.2)) :=
    runBranches_eq c branches
  have hmapeq : (runBranches branches c).map (fun r => r.2) =
      branches.map (fun b => b.2) := by
    rw [hrb, List.map_map]
    rfl
  have hsucc2 : ∀ r ∈ runBranches branches c, ∃ bc, r.1.result = .succeeded bc := by
    rw [hrb]
    intro r hr
    obtain ⟨b, hb, rfl⟩ := List.mem_map.mp hr
    exact hsucc b hb
  have hdisj2 : pairwiseDisjoint ((runBranches branches c).map (fun r => r.2)) =
      true := by rw [hmapeq]; exact hdisj
  have hfb : firstBranchErr (runBranches branches c) = none :=
    firstBranchErr_none _ hsucc2
  have hjoin : joinAll (runBranches branches c) c =
      .ok (joinFold (runBranches branches c) c) :=
    joinAllAux_eq_joinFold _ [] c hsucc2 hdisj2 (by simp)
  have hmem : ∀ b ∈ branches, (run b.1 c, b.2) ∈ runBranches branches c := by
    intro b hb
    rw [hrb]
    exact List.mem_map.mpr ⟨b, hb, rfl⟩
  refine ⟨hrb, ?_, ?_, ?_⟩
  · rw [run_parallel_eq]
    exact parallelStep_all_ok name _ _ _ c _ hfb hjoin
  · intro b hb bc hbc
    constructor
    · intro q v hv
      exact joinFold_get_sub _ c (run b.1 c) b.2 bc q v (hmem b hb) hbc hdisj2 hv
    · intro q hq
      exact joinFold_get_absent _ c (run b.1 c) b.2 bc q (hmem b hb) hbc hdisj2 hq
  · intro r hr
    apply joinFold_untouched
    rw [hrb]
    intro x hx
    obtain ⟨b, hb, rfl⟩ := List.mem_map.mp hx
    exact hr b hb

/-- Two concrete succeeding branches used in the Parallel witnesses. -/
def brA : Node :=
  .task "A" [] (fun _ => .ok [(["x"], .vnum 1)]) ["ra"] [] (.succeed "SA")

/-- Second concrete succeeding branch. -/
def brB : Node :=
  .task "B" [] (fun _ => .ok [(["y"], .vnum 2)]) ["rb"] [] (.succeed "SB")

/-- C3 witness: a two-branch Parallel with disjoint result paths; branch
A writes value 1 below its declared path and that value is found there
in the joined context. -/
theorem C3_parallel_fork_join_witness :
    ctxGet ["0", "ra", "x"]
      (joinFold (runBranches [(brA, ["0"]), (brB, ["1"])] []) []) =
      some (.vnum 1) := by
  have h := C3_parallel_fork_join "P" [(brA, ["0"]), (brB, ["1"])] []
    (.succeed "N") [] (by decide) ?hs
  case hs =>
    intro b hb
    rcases List.mem_cons.mp hb with h1 | hb2
    · subst h1
      exact ⟨[(["ra", "x"], .vnum 1)], by decide⟩
    · rcases List.mem_cons.mp hb2 with h2 | hb3
      · subst h2
        exact ⟨[(["rb", "y"], .vnum 2)], by decide⟩
      · exact absurd hb3 (List.not_mem_nil _)
  obtain ⟨-, -, h3, -⟩ := h
  exact (h3 (brA, ["0"]) (List.mem_cons_self _ _) [(["ra", "x"], .vnum 1)]
    (by decide)).1 ["ra", "x"] (.vnum 1) (by decide)

/-! Parallel failure handling: no cancellation of siblings. -/

/-- Occurrences of a caught status for a node name in a run log. -/
def caughtCount (nm : String) (log : List (String × Status)) : Nat :=
  (log.filter (fun x => x.1 == nm &&
    match x.2 with
    | .caught _ => true
    | _ => false)).length

theorem caughtCount_append (nm : String) (a b : List (String × Status)) :
    caughtCount nm (a ++ b) = caughtCount nm a + caughtCount nm b := by
  simp [caughtCount, List.filter_append]

theorem caughtCount_fire (nm : String) (e : Err) :
    caughtCount nm [(nm, .failed e), (nm, .caught e)] = 1 := by
  simp [caughtCount, List.filter]

theorem branchLogs_foldr (branches : List (Node × Path)) (c : Ctx) :
    branchLogs (runBranches branches c) =
      branches.foldr (fun b acc => (run b.1 c).log ++ acc) [] := by
  induction branches with
  | nil => rfl
  | cons b rest ih =>
    obtain ⟨n, p⟩ := b
    simp only [runBranches, branchLogs, List.foldr_cons] at ih ⊢
    rw [ih]

/-- C2: when a branch of a Parallel fails, no sibling is cancelled:
every branch outcome is the complete standalone run of that branch on
the fork-time context and reaches its own terminal state, the full logs
of all branches precede the node-level failure entries, and only then
does the catch rule fire, exactly once, handing control to its handler;
with no matching catch rule the failure propagates upward unchanged. -/
theorem C2_parallel_branch_failure (name : String)
    (branches : List (Node × Path)) (catches : List (List String × Node))
    (next : Node) (c : Ctx) (e : Err)
    (hfail : firstBranchErr (runBranches branches c) = some (.inr e)) :
    (∀ h, matchCatch e.kind catches = some h →
      run (.parallel name branches catches next) c =
        prependLog (branchLogs (runBranches branches c) ++
          [(name, .failed e), (name, .caught e)]) (run h c) ∧
      caughtCount name (run (.parallel name branches catches next) c).log =
        caughtCount name (branchLogs (runBranches branches c)) + 1 +
          caughtCount name (run h c).log) ∧
    (matchCatch e.kind catches = none →
      run (.parallel name branches catches next) c =
        { result := .failed e
          log := branchLogs (runBranches branches c) ++ [(name, .failed e)] }) ∧
    branchLogs (runBranches branches c) =
      branches.foldr (fun b acc => (run b.1 c).log ++ acc) [] ∧
    (∀ b ∈ branches, (∀ ce, (run b.1 c).result ≠ .ctxErr ce) →
      (∃ bc, (run b.1 c).result = .succeeded bc) ∨
      (∃ e', (run b.1 c).result = .failed e')) := by
  refine ⟨?_, ?_, branchLogs_foldr branches c, ?_⟩
  · intro h hc
    have hrun : run (.parallel name branches catches next) c =
        prependLog (branchLogs (runBranches branches c) ++
          [(name, .failed e), (name, .caught e)]) (run h c) := by
      rw [run_parallel_eq]
      exact parallelStep_caught name _ _ _ c e (run h c) hfail
        (by rw [runCatches_eq, hc]; rfl)
    refine ⟨hrun, ?_⟩
    rw [hrun]
    simp only [prependLog, caughtCount_append, caughtCount_fire]
  · intro hc
    rw [run_parallel_eq]
    exact parallelStep_uncaught name _ _ _ c e hfail
      (by rw [runCatches_eq, hc]; rfl)
  · intro b _ hne
    cases hres : (run b.1 c).result with
    | succeeded bc => exact Or.inl ⟨bc, rfl⟩
    | failed e' => exact Or.inr ⟨e', rfl⟩
    | ctxErr ce => exact absurd hres (hne ce)

/-- A concrete failing branch used in the Parallel failure witness. -/
def brFail : Node :=
  .task "B" [] (fun _ => .error ⟨"States.TaskFailed", "boom"⟩) ["rb"] []
    (.succeed "SB")

/-- C2 witness: branch A succeeds, branch B fails with TaskFailed; the
node-level catch fires exactly once after both complete branch logs. -/
theorem C2_parallel_branch_failure_witness :
    run (.parallel "P" [(brA, ["0"]), (brFail, ["1"])]
        [(["States.TaskFailed"], .fail "PF" "E" "combined failed")]
        (.succeed "N")) [] =
      prependLog (branchLogs (runBranches [(brA, ["0"]), (brFail, ["1"])] []) ++
        [("P", .failed ⟨"States.TaskFailed", "boom"⟩),
         ("P", .caught ⟨"States.TaskFailed", "boom"⟩)])
        (run (.fail "PF" "E" "combined failed") []) ∧
    caughtCount "P" (run (.parallel "P" [(brA, ["0"]), (brFail, ["1"])]
        [(["States.TaskFailed"], .fail "PF" "E" "combined failed")]
        (.succeed "N")) []).log = 1 := by
  have h := C2_parallel_branch_failure "P" [(brA, ["0"]), (brFail, ["1"])]
    [(["States.TaskFailed"], .fail "PF" "E" "combined failed")] (.succeed "N")
    [] ⟨"States.TaskFailed", "boom"⟩ (by decide)
  obtain ⟨h1, -, -, -⟩ := h
  obtain ⟨heq, hcount⟩ := h1 (.fail "PF" "E" "combined failed") rfl
  refine ⟨heq, ?_⟩
  rw [hcount]
  decide

/-- C4: on a step failure with error kind E the Executor matches E
against the node's catch patterns in declaration order and the first
match transfers control to that handler; an E unmatched at the node
propagates to the enclosing composite's catch list, and an E unhandled
at the run root terminates the run in Failed with the original error
kind and cause recorded in the run log. -/
theorem C4_catch_order_and_propagation :
    (∀ (name : String) (inputs : List (String × InVal))
      (act : Ctx → Except Err Ctx) (resPath : Path)
      (pre post : List (List String × Node)) (pats : List String)
      (h next : Node) (c payload : Ctx) (e : Err),
      resolveInputs inputs c = .ok payload → act payload = .error e →
      (∀ r ∈ pre, e.kind ∉ r.1) → e.kind ∈ pats →
      run (.task name inputs act resPath (pre ++ (pats, h) :: post) next) c =
        prependLog [(name, .failed e), (name, .caught e)] (run h c)) ∧
    (∀ (name : String) (inputs : List (String × InVal))
      (act : Ctx → Except Err Ctx) (resPath : Path)
      (catches : List (List String × Node)) (next : Node) (c payload : Ctx)
      (e : Err),
      resolveInputs inputs c = .ok payload → act payload = .error e →
      (∀ r ∈ catches, e.kind ∉ r.1) →
      run (.task name inputs act resPath catches next) c =
        { result := .failed e, log := [(name, .failed e)] }) ∧
    (∀ (pname : String) (branches : List (Node × Path))
      (catches : List (List String × Node)) (next h : Node) (c : Ctx)
      (e : Err),
      firstBranchErr (runBranches branches c) = some (.inr e) →
      matchCatch e.kind catches = some h →
      run (.parallel pname branches catches next) c =
        prependLog (branchLogs (runBranches branches c) ++
          [(pname, .failed e), (pname, .caught e)]) (run h c)) ∧
    (∀ (pname : String) (branches : List (Node × Path))
      (catches : List (List String × Node)) (next : Node) (c : Ctx) (e : Err),
      firstBranchErr (runBranches branches c) = some (.inr e) →
      (∀ r ∈ catches, e.kind ∉ r.1) →
      (run (.parallel pname branches catches next) c).result = .failed e ∧
      (pname, .failed e) ∈ (run (.parallel pname branches catches next) c).log) := by
  refine ⟨?_, ?_, ?_, ?_⟩
  · intro name inputs act resPath pre post pats h next c payload e hr ha hpre hk
    exact run_task_caught name inputs act resPath _ next c payload e h hr ha
      (matchCatch_first e.kind pre post pats h hpre hk)
  · intro name inputs act resPath catches next c payload e hr ha hnone
    exact run_task_uncaught name inputs act resPath catches next c payload e
      hr ha (matchCatch_none e.kind catches hnone)
  · intro pname branches catches next h c e hfail hc
    rw [run_parallel_eq]
    exact parallelStep_caught pname _ _ _ c e (run h c) hfail
      (by rw [runCatches_eq, hc]; rfl)
  · intro pname branches catches next c e hfail hnone
    have hrun : run (.parallel pname branches catches next) c =
        { result := .failed e
          log := branchLogs (runBranches branches c) ++ [(pname, .failed e)] } := by
      rw [run_parallel_eq]
      exact parallelStep_uncaught pname _ _ _ c e hfail
        (by rw [runCatches_eq, matchCatch_none e.kind catches hnone]; rfl)
    rw [hrun]
    exact ⟨rfl, List.mem_append_right _ (List.mem_cons_self _ _)⟩

/-- C4 witness: a task failing with Timeout whose second catch rule is
the first to list Timeout; control moves to that rule's handler. -/
theorem C4_catch_order_and_propagation_witness :
    run (.task "T" [] (fun _ => .error ⟨"States.Timeout", "too slow"⟩) ["r"]
        ([(["States.TaskFailed"], .fail "H1" "E1" "c1")] ++
          (["States.Timeout"], Node.fail "H2" "E2" "c2") ::
            [(["States.ALL"], .fail "H3" "E3" "c3")])
        (.succeed "N")) [] =
      prependLog [("T", .failed ⟨"States.Timeout", "too slow"⟩),
        ("T", .caught ⟨"States.Timeout", "too slow"⟩)]
        (run (.fail "H2" "E2" "c2") []) := by
  exact C4_catch_order_and_propagation.1 "T" []
    (fun _ => .error ⟨"States.Timeout", "too slow"⟩) ["r"]
    [(["States.TaskFailed"], .fail "H1" "E1" "c1")]
    [(["States.ALL"], .fail "H3" "E3" "c3")] ["States.Timeout"]
    (.fail "H2" "E2" "c2") (.succeed "N") [] []
    ⟨"States.Timeout", "too slow"⟩ rfl rfl (by decide) (by decide)

/-! The concrete workflow graph declared in src/notebook/workflow.ipynb,
embedded over the engine model.  External job and lambda behaviours are
parameters; array index [0] in the metric path is the segment "0". -/

/-- The context path queried by the notebook threshold rule
(workflow.ipynb threshold_rule variable). -/
def metricPath : Path :=
  ["QueryTrainingResults", "Payload", "results", "TrainingMetrics", "0",
   "Value"]

/-- The notebook accuracy rule: NumericLessThan on the queried training
metric value against the literal 10 (workflow.ipynb threshold_rule). -/
def thresholdRule : Pred := .numLt metricPath 10

/-- The notebook Fail state taken when the threshold rule does not
match (workflow.ipynb check_accuracy_fail_step; it declares no error
name and no cause, only a comment). -/
def checkAccuracyFailStep : Node := .fail "Model Error Too Low" "" ""

/-- The notebook Succeed state
(workflow.ipynb check_accuracy_succeed_step). -/
def checkAccuracySucceedStep : Node := .succeed "Model Error Acceptable"

/-- The notebook Choice state with the single threshold rule and the
Fail state as default (workflow.ipynb check_accuracy_step). -/
def checkAccuracyStep : Node :=
  .choice "RMSE < 10" [(thresholdRule, checkAccuracySucceedStep)]
    (some checkAccuracyFailStep)

/-- C9: the accuracy Choice uses a strict NumericLessThan against the
literal 10: a metric value of exactly 10, or any larger value, does not
match the rule, the default branch is taken and the run ends in the
Fail state named Model Error Too Low; only a value strictly below 10
reaches the Succeed state. -/
theorem C9_strict_threshold (m : Int) (c : Ctx)
    (hm : ctxGet metricPath c = some (.vnum m)) :
    (m < 10 → run checkAccuracyStep c =
      prependLog [("RMSE < 10", .succeeded)] (run checkAccuracySucceedStep c)) ∧
    (10 ≤ m →
      run checkAccuracyStep c =
        prependLog [("RMSE < 10", .succeeded)] (run checkAccuracyFailStep c) ∧
      (run checkAccuracyStep c).result = .failed ⟨"", ""⟩ ∧
      ("Model Error Too Low", Status.failed ⟨"", ""⟩) ∈
        (run checkAccuracyStep c).log) := by
  constructor
  · intro hlt
    apply run_choice_match
    simp [selectRule, evalPred, thresholdRule, hm, hlt]
  · intro hge
    have hfalse : evalPred thresholdRule c = false := by
      simp [evalPred, thresholdRule, hm]
      omega
    have hd : run checkAccuracyStep c =
        prependLog [("RMSE < 10", .succeeded)] (run checkAccuracyFailStep c) := by
      apply run_choice_default
      simp [selectRule, hfalse]
    refine ⟨hd, ?_, ?_⟩
    · rw [hd]
      rfl
    · rw [hd]
      simp [prependLog, run, checkAccuracyFailStep]

/-- C9 witness: with the metric equal to exactly 10 the rule does not
match and the Fail state named Model Error Too Low is reached. -/
theorem C9_strict_threshold_witness :
    (run checkAccuracyStep [(metricPath, .vnum 10)]).result =
      .failed ⟨"", ""⟩ ∧
    ("Model Error Too Low", Status.failed ⟨"", ""⟩) ∈
      (run checkAccuracyStep [(metricPath, .vnum 10)]).log := by
  have h := (C9_strict_threshold 10 [(metricPath, .vnum 10)] (by decide)).2
    (by omega)
  exact ⟨h.2.1, h.2.2⟩

/-- The notebook catch rule of the baseline processing step; it matches
only States.TaskFailed (workflow.ipynb baseline_step.add_catch). -/
def baselineCatch : List (List String × Node) :=
  [(["States.TaskFailed"],
    .fail "Baseline failed" "" "SageMakerBaselineJobFailed")]

/-- The notebook catch rule of the training step; it matches only
States.TaskFailed (workflow.ipynb training_step.add_catch). -/
def trainingCatch : List (List String × Node) :=
  [(["States.TaskFailed"],
    .fail "Training failed" "" "SageMakerTrainingJobFailed")]

/-- The notebook catch rule of the SageMaker Jobs Parallel node; it
matches only States.TaskFailed (workflow.ipynb sagemaker_jobs.add_catch). -/
def sagemakerJobsCatch : List (List String × Node) :=
  [(["States.TaskFailed"],
    .fail "SageMaker Jobs failed" "" "SageMakerJobsFailed")]

/-- The notebook baseline branch: the Baseline Job processing step with
its catch rule (workflow.ipynb baseline_step). -/
def baselineBranch (bAct : Ctx → Except Err Ctx) : Node :=
  .task "Baseline Job" [("BaselineJobName", .ref ["BaselineJobName"])]
    bAct ["BaselineResults"] baselineCatch (.succeed "Baseline End")

/-- The notebook training branch: Training Job, Save Model, Query
Training Results, then the accuracy Choice (workflow.ipynb chain of
training_step, model_step, training_query_step, check_accuracy_step). -/
def trainingBranch (tAct mAct qAct : Ctx → Except Err Ctx) : Node :=
  .task "Training Job" [("TrainingJobName", .ref ["TrainingJobName"])] tAct
    ["TrainingResults"] trainingCatch
    (.task "Save Model"
      [("Input", .ref ["TrainingResults", "ModelArtifacts"])] mAct
      ["ModelStepResults"] []
      (.task "Query Training Results"
        [("TrainingJobName", .ref ["TrainingJobName"])] qAct
        ["QueryTrainingResults"] [] checkAccuracyStep))

/-- The notebook SageMaker Jobs Parallel node with its two branches and
its catch rule (workflow.ipynb sagemaker_jobs). -/
def sagemakerJobs (bAct tAct mAct qAct : Ctx → Except Err Ctx) : Node :=
  .parallel "SageMaker Jobs"
    [(baselineBranch bAct, ["0"]), (trainingBranch tAct mAct qAct, ["1"])]
    sagemakerJobsCatch (.succeed "Workflow End")

/-- The notebook workflow graph: Create Experiment chained into the
SageMaker Jobs Parallel node (workflow.ipynb workflow_graph). -/
def workflowGraph (cAct bAct tAct mAct qAct : Ctx → Except Err Ctx) : Node :=
  .task "Create Experiment"
    [("ExperimentName", .ref ["ExperimentName"]),
     ("TrialName", .ref ["TrialName"])]
    cAct ["CreateTrialResults"] [] (sagemakerJobs bAct tAct mAct qAct)

mutual
/-- All catch pattern lists declared anywhere in a graph, in
declaration order. -/
def collectCatchPats : Node → List (List String)
  | .succeed _ => []
  | .fail _ _ _ => []
  | .task _ _ _ _ catches next =>
    collectCatchPatsCatches catches ++ collectCatchPats next
  | .choice _ rules dflt =>
    collectCatchPatsRules rules ++
      (match dflt with
       | none => []
       | some d => collectCatchPats d)
  | .parallel _ branches catches next =>
    collectCatchPatsBranches branches ++ collectCatchPatsCatches catches ++
      collectCatchPats next

/-- Catch pattern lists of a catch list, handlers included. -/
def collectCatchPatsCatches : List (List String × Node) → List (List String)
  | [] => []
  | (pats, h) :: rest =>
    pats :: (collectCatchPats h ++ collectCatchPatsCatches rest)

/-- Catch pattern lists reachable through Choice rule targets. -/
def collectCatchPatsRules : List (Pred × Node) → List (List String)
  | [] => []
  | (_, n) :: rest => collectCatchPats n ++ collectCatchPatsRules rest

/-- Catch pattern lists reachable through Parallel branches. -/
def collectCatchPatsBranches : List (Node × Path) → List (List String)
  | [] => []
  | (b, _) :: rest => collectCatchPats b ++ collectCatchPatsBranches rest
end

/-- An external action that succeeds with an empty result subtree. -/
def actOkEmpty : Ctx → Except Err Ctx := fun _ => .ok []

/-- An external action that fails with the given error kind and cause. -/
def actFailWith (k : ErrorKind) (s : String) : Ctx → Except Err Ctx :=
  fun _ => .error ⟨k, s⟩

/-- The run input of the notebook workflow (workflow_inputs), reduced
to the keys the embedded graph references. -/
def nbInput : Ctx :=
  [(["ExperimentName"], .vstr "mlops-model"),
   (["TrialName"], .vstr "mlops-model-job"),
   (["BaselineJobName"], .vstr "mlops-model-job"),
   (["TrainingJobName"], .vstr "mlops-model-job")]

/-! Soundness of build-time validation: a validated graph whose
referenced paths are present in the run input never raises a context
error. -/

theorem prependLog_result (l : List (String × Status)) (o : Outcome) :
    (prependLog l o).result = o.result := rfl

theorem resolveInputs_ok (inputs : List (String × InVal)) (c : Ctx)
    (h : ∀ p ∈ refPathsOfInputs inputs, p ∈ ctxKeys c) :
    ∃ payload, resolveInputs inputs c = .ok payload := by
  induction inputs with
  | nil => exact ⟨[], rfl⟩
  | cons kv rest ih =>
    obtain ⟨k, iv⟩ := kv
    cases iv with
    | lit v =>
      obtain ⟨payload, hp⟩ := ih (fun q hq => h q (by simpa [refPathsOfInputs] using hq))
      exact ⟨([k], v) :: payload, by simp [resolveInputs, hp, Except.map]⟩
    | ref p =>
      have hpmem : p ∈ ctxKeys c := h p (by simp [refPathsOfInputs])
      obtain ⟨v, hv⟩ := ctxGet_mem p c hpmem
      obtain ⟨payload, hp⟩ := ih (fun q hq =>
        h q (by simp [refPathsOfInputs, hq]))
      exact ⟨([k], v) :: payload, by simp [resolveInputs, ctxGetE, hv, hp, Except.map]⟩

theorem ctxKeys_subset_mergeAt (sub : Ctx) (at_ : Path) (c : Ctx) (p : Path)
    (hp : p ∈ ctxKeys c) : p ∈ ctxKeys (ctxMergeAt sub at_ c) := by
  rw [ctxKeys_mergeAt]
  exact List.mem_append_right _ hp

theorem ctxKeys_subset_joinFold (rs : List (Outcome × Path)) :
    ∀ (c : Ctx) (p : Path), p ∈ ctxKeys c → p ∈ ctxKeys (joinFold rs c) := by
  induction rs with
  | nil => intro c p hp; exact hp
  | cons r rest ih =>
    intro c p hp
    obtain ⟨o, pp⟩ := r
    cases hres : o.result with
    | succeeded bc =>
      rw [joinFold_cons_succ o pp rest c bc hres]
      exact ih _ _ (ctxKeys_subset_mergeAt bc pp c p hp)
    | failed e =>
      rw [joinFold_cons_failed o pp rest c e hres]
      exact ih _ _ hp
    | ctxErr e =>
      rw [joinFold_cons_ctxErr o pp rest c e hres]
      exact ih _ _ hp

theorem firstBranchErr_cons_ctxErr (o : Outcome) (p : Path)
    (rest : List (Outcome × Path)) (ce : CtxError)
    (hbc : o.result = .ctxErr ce) :
    firstBranchErr ((o, p) :: rest) = some (.inl ce) := by
  obtain ⟨res, lg⟩ := o
  simp only [Outcome.result] at hbc
  subst hbc
  rfl

theorem firstBranchErr_none_elim (rs : List (Outcome × Path))
    (h : firstBranchErr rs = none) :
    ∀ r ∈ rs, ∃ bc, r.1.result = .succeeded bc := by
  induction rs with
  | nil => intro r hr; exact absurd hr (List.not_mem_nil _)
  | cons x rest ih =>
    obtain ⟨o, p⟩ := x
    intro r hr
    cases hres : o.result with
    | succeeded bc =>
      rw [firstBranchErr_cons_succ o p rest bc hres] at h
      rcases List.mem_cons.mp hr with heq | hr2
      · subst heq
        exact ⟨bc, hres⟩
      · exact ih h r hr2
    | failed e =>
      rw [firstBranchErr_cons_failed o p rest e hres] at h
      exact Option.noConfusion h
    | ctxErr ce =>
      rw [firstBranchErr_cons_ctxErr o p rest ce hres] at h
      exact Option.noConfusion h

theorem firstBranchErr_inl_elim (rs : List (Outcome × Path)) (ce : CtxError)
    (h : firstBranchErr rs = some (.inl ce)) :
    ∃ r ∈ rs, r.1.result = .ctxErr ce := by
  induction rs with
  | nil => exact Option.noConfusion h
  | cons x rest ih =>
    obtain ⟨o, p⟩ := x
    cases hres : o.result with
    | succeeded bc =>
      rw [firstBranchErr_cons_succ o p rest bc hres] at h
      obtain ⟨r, hr, hres2⟩ := ih h
      exact ⟨r, List.mem_cons_of_mem _ hr, hres2⟩
    | failed e =>
      rw [firstBranchErr_cons_failed o p rest e hres] at h
      simp at h
    | ctxErr ce2 =>
      rw [firstBranchErr_cons_ctxErr o p rest ce2 hres] at h
      simp only [Option.some_inj, Sum.inl.injEq] at h
      subst h
      exact ⟨(o, p), List.mem_cons_self _ _, hres⟩

mutual
/-- A validated graph whose referenced paths are present never ends a
run with a context error. -/
theorem runSafe (n : Node) : ∀ (c : Ctx) (ks : List Path),
    validate n = .ok () → refsOk n ks = true →
    (∀ p ∈ ks, p ∈ ctxKeys c) →
    ∀ ce, (run n c).result ≠ .ctxErr ce := by
  cases n with
  | succeed name =>
    intro c ks _ _ _ ce
    simp [run]
  | fail name errName cause =>
    intro c ks _ _ _ ce
    simp [run]
  | task name inputs act resPath catches next =>
    intro c ks hv hrefs hsub ce
    simp only [validate] at hv
    simp only [refsOk, Bool.and_eq_true, List.all_eq_true,
      decide_eq_true_eq] at hrefs
    obtain ⟨⟨hri, hrc⟩, hrn⟩ := hrefs
    have hri2 : ∀ p ∈ refPathsOfInputs inputs, p ∈ ctxKeys c :=
      fun p hp => hsub p (hri p hp)
    obtain ⟨payload, hp⟩ := resolveInputs_ok inputs c hri2
    cases hvc : validateCatches catches with
    | error e =>
      simp only [hvc] at hv
      exact Except.noConfusion hv
    | ok u =>
      cases u
      simp only [hvc] at hv
      cases ha : act payload with
      | ok out =>
        rw [run_task_ok name inputs act resPath catches next c payload out
          hp ha, prependLog_result]
        apply runSafe next (ctxMergeAt out resPath c) ks hv hrn
        intro p hpk
        exact ctxKeys_subset_mergeAt out resPath c p (hsub p hpk)
      | error e =>
        cases hc : matchCatch e.kind catches with
        | some h =>
          rw [run_task_caught name inputs act resPath catches next c payload
            e h hp ha hc, prependLog_result]
          apply runCatchesSafe catches e.kind c ks hvc hrc hsub (run h c)
          rw [runCatches_eq, hc]
          rfl
        | none =>
          rw [run_task_uncaught name inputs act resPath catches next c
            payload e hp ha hc]
          simp
  | choice name rules dflt =>
    intro c ks hv hrefs hsub ce
    cases dflt with
    | none => simp [validate] at hv
    | some d =>
      simp only [validate] at hv
      cases hvr : validateRules rules with
      | error e =>
        simp only [hvr] at hv
        exact Except.noConfusion hv
      | ok u =>
        cases u
        simp only [hvr] at hv
        simp only [refsOk, Bool.and_eq_true] at hrefs
        obtain ⟨hrr, hrd⟩ := hrefs
        simp only [run]
        cases hrr2 : runRules c rules with
        | some o =>
          simp only [choiceFinish, prependLog_result]
          exact runRulesSafe rules c ks hvr hrr hsub o hrr2 ce
        | none =>
          simp only [choiceFinish, runDflt, prependLog_result]
          exact runSafe d c ks hv hrd hsub ce
  | parallel name branches catches next =>
    intro c ks hv hrefs hsub ce
    simp only [validate] at hv
    cases hpd : pairwiseDisjoint (branches.map (fun b => b.2)) with
    | false =>
      rw [hpd] at hv
      simp at hv
    | true =>
      rw [hpd] at hv
      simp only [if_true] at hv
      cases hvb : validateBranches branches with
      | error e =>
        simp only [hvb] at hv
        exact Except.noConfusion hv
      | ok u =>
        cases u
        simp only [hvb] at hv
        cases hvc : validateCatches catches with
        | error e =>
          simp only [hvc] at hv
          exact Except.noConfusion hv
        | ok u2 =>
          cases u2
          simp only [hvc] at hv
          simp only [refsOk, Bool.and_eq_true] at hrefs
          obtain ⟨⟨hrb, hrc⟩, hrn⟩ := hrefs
          rw [run_parallel_eq]
          cases hfb : firstBranchErr (runBranches branches c) with
          | some err =>
            cases err with
            | inl ce2 =>
              obtain ⟨r, hr, hres⟩ := firstBranchErr_inl_elim _ ce2 hfb
              exact absurd hres
                (runBranchesSafe branches c ks hvb hrb hsub r hr ce2)
            | inr e =>
              cases hc : runCatches e.kind c catches with
              | some o =>
                rw [parallelStep_caught name _ _ _ c e o hfb hc,
                  prependLog_result]
                exact runCatchesSafe catches e.kind c ks hvc hrc hsub o hc ce
              | none =>
                rw [parallelStep_uncaught name _ _ _ c e hfb hc]
                simp
          | none =>
            have hsucc := firstBranchErr_none_elim _ hfb
            have hmapeq : (runBranches branches c).map (fun r => r.2) =
                branches.map (fun b => b.2) := by
              rw [runBranches_eq, List.map_map]
              rfl
            have hdisj2 :
                pairwiseDisjoint ((runBranches branches c).map (fun r => r.2)) =
                  true := by
              rw [hmapeq]
              exact hpd
            have hjoin : joinAll (runBranches branches c) c =
                .ok (joinFold (runBranches branches c) c) :=
              joinAllAux_eq_joinFold _ [] c hsucc hdisj2 (by simp)
            rw [parallelStep_all_ok name _ _ _ c _ hfb hjoin,
              prependLog_result]
            apply runSafe next (joinFold (runBranches branches c) c) ks hv hrn
            intro p hpk
            exact ctxKeys_subset_joinFold _ c p (hsub p hpk)

/-- Branch runs of a validated Parallel never end with a context
error. -/
theorem runBranchesSafe (branches : List (Node × Path)) :
    ∀ (c : Ctx) (ks : List Path),
    validateBranches branches = .ok () → refsOkBranches branches ks = true →
    (∀ p ∈ ks, p ∈ ctxKeys c) →
    ∀ r ∈ runBranches branches c, ∀ ce, r.1.result ≠ .ctxErr ce := by
  cases branches with
  | nil =>
    intro c ks _ _ _ r hr
    simp [runBranches] at hr
  | cons bp rest =>
    intro c ks hv hrefs hsub r hr ce
    obtain ⟨b, p⟩ := bp
    simp only [validateBranches] at hv
    cases hvb : validate b with
    | error e =>
      simp only [hvb] at hv
      exact Except.noConfusion hv
    | ok u =>
      cases u
      simp only [hvb] at hv
      simp only [refsOkBranches, Bool.and_eq_true] at hrefs
      obtain ⟨hrb, hrr⟩ := hrefs
      simp only [runBranches] at hr
      rcases List.mem_cons.mp hr with heq | hr2
      · subst heq
        exact runSafe b c ks hvb hrb hsub ce
      · exact runBranchesSafe rest c ks hv hrr hsub r hr2 ce

/-- A catch handler selected from a validated catch list never ends
with a context error. -/
theorem runCatchesSafe (catches : List (List String × Node)) :
    ∀ (k : ErrorKind) (c : Ctx) (ks : List Path),
    validateCatches catches = .ok () → refsOkCatches catches ks = true →
    (∀ p ∈ ks, p ∈ ctxKeys c) →
    ∀ o, runCatches k c catches = some o → ∀ ce, o.result ≠ .ctxErr ce := by
  cases catches with
  | nil =>
    intro k c ks _ _ _ o hmem
    simp [runCatches] at hmem
  | cons ph rest =>
    intro k c ks hv hrefs hsub o hmem ce
    obtain ⟨pats, h⟩ := ph
    simp only [validateCatches] at hv
    cases hvh : validate h with
    | error e =>
      simp only [hvh] at hv
      exact Except.noConfusion hv
    | ok u =>
      cases u
      simp only [hvh] at hv
      simp only [refsOkCatches, Bool.and_eq_true] at hrefs
      obtain ⟨hrh, hrr⟩ := hrefs
      simp only [runCatches] at hmem
      cases hk : pats.contains k with
      | true =>
        rw [hk] at hmem
        simp only [if_true, Option.some_inj] at hmem
        subst hmem
        exact runSafe h c ks hvh hrh hsub ce
      | false =>
        rw [hk] at hmem
        simp only [Bool.false_eq_true, if_false] at hmem
        exact runCatchesSafe rest k c ks hv hrr hsub o hmem ce

/-- A rule target selected from a validated Choice rule list never
ends with a context error. -/
theorem runRulesSafe (rules : List (Pred × Node)) :
    ∀ (c : Ctx) (ks : List Path),
    validateRules rules = .ok () → refsOkRules rules ks = true →
    (∀ p ∈ ks, p ∈ ctxKeys c) →
    ∀ o, runRules c rules = some o → ∀ ce, o.result ≠ .ctxErr ce := by
  cases rules with
  | nil =>
    intro c ks _ _ _ o hmem
    simp [runRules] at hmem
  | cons pn rest =>
    intro c ks hv hrefs hsub o hmem ce
    obtain ⟨p, nd⟩ := pn
    simp only [validateRules] at hv
    cases hvn : validate nd with
    | error e =>
      simp only [hvn] at hv
      exact Except.noConfusion hv
    | ok u =>
      cases u
      simp only [hvn] at hv
      simp only [refsOkRules, Bool.and_eq_true] at hrefs
      obtain ⟨hrn, hrr⟩ := hrefs
      simp only [runRules] at hmem
      cases hp : evalPred p c with
      | true =>
        rw [hp] at hmem
        simp only [if_true, Option.some_inj] at hmem
        subst hmem
        exact runSafe nd c ks hvn hrn hsub ce
      | false =>
        rw [hp] at hmem
        simp only [Bool.false_eq_true, if_false] at hmem
        exact runRulesSafe rest c ks hv hrr hsub o hmem ce
end

/-- C8: a graph that passes build-time validation, run on an input that
contains every context path the graph references, runs to completion
(the executor is total) without raising PathNotFound or PathCollision;
and a graph that fails build-time validation never starts a run — there
is no partial run of a malformed graph. -/
theorem C8_validated_graphs_run_safely :
    (∀ (g : Node) (input : Ctx),
      validate g = .ok () → refsOk g (ctxKeys input) = true →
      ∀ ce, (run g input).result ≠ .ctxErr ce) ∧
    (∀ (g : Node) (input : Ctx) (e : BuildError),
      validate g = .error e → startRun g input = .notStarted e) := by
  constructor
  · intro g input hv hr ce
    exact runSafe g input (ctxKeys input) hv hr (fun p hp => hp) ce
  · intro g input e hv
    simp [startRun, hv]

/-- C8 witness: the validated scenario graph runs without context
errors on its input, and a Choice without a default never starts. -/
theorem C8_validated_graphs_run_safely_witness :
    validate scenarioGraph = .ok () ∧
    (∀ ce, (run scenarioGraph [(["value"], .vnum 5)]).result ≠ .ctxErr ce) ∧
    startRun (.choice "C" [] none) [] =
      .notStarted (.missingDefaultBranch "C") := by
  refine ⟨rfl, ?_, ?_⟩
  · intro ce
    exact C8_validated_graphs_run_safely.1 scenarioGraph
      [(["value"], .vnum 5)] rfl (by decide) ce
  · exact C8_validated_graphs_run_safely.2 (.choice "C" [] none) []
      (.missingDefaultBranch "C") rfl

/-! Behaviour of the notebook graph under failures of any of its five
steps with error kinds other than States.TaskFailed. -/

/-- An external action that never reports the States.TaskFailed error
kind: every failure it returns carries some other kind. -/
def NoTF (a : Ctx → Except Err Ctx) : Prop :=
  ∀ p e, a p = .error e → e.kind ≠ "States.TaskFailed"

/-- No entry of a run log belongs to one of the three Fail handler
states declared by the notebook catch rules. -/
def handlerFree (lg : List (String × Status)) : Prop :=
  ∀ x ∈ lg, x.1 ≠ "Baseline failed" ∧ x.1 ≠ "Training failed" ∧
    x.1 ≠ "SageMaker Jobs failed"

theorem handlerFree_nil : handlerFree [] := by
  intro x hx
  exact absurd hx (List.not_mem_nil _)

theorem handlerFree_append (a b : List (String × Status))
    (ha : handlerFree a) (hb : handlerFree b) : handlerFree (a ++ b) := by
  intro x hx
  rcases List.mem_append.mp hx with h | h
  · exact ha x h
  · exact hb x h

theorem run_task_resolveErr (name : String) (inputs : List (String × InVal))
    (act : Ctx → Except Err Ctx) (resPath : Path)
    (catches : List (List String × Node)) (next : Node) (c : Ctx)
    (ce : CtxError) (hr : resolveInputs inputs c = .error ce) :
    run (.task name inputs act resPath catches next) c =
      { result := .ctxErr ce, log := [(name, ctxErrStatus)] } := by
  simp [run, hr]

theorem parallelStep_branch_ctxErr (name : String)
    (rs : List (Outcome × Path)) (catchRun : ErrorKind → Option Outcome)
    (nextRun : Ctx → Outcome) (c : Ctx) (ce : CtxError)
    (hfb : firstBranchErr rs = some (.inl ce)) :
    parallelStep name rs catchRun nextRun c =
      { result := .ctxErr ce, log := branchLogs rs ++ [(name, ctxErrStatus)] } := by
  simp [parallelStep, hfb]

theorem parallelStep_join_err (name : String) (rs : List (Outcome × Path))
    (catchRun : ErrorKind → Option Outcome) (nextRun : Ctx → Outcome)
    (c : Ctx) (ce : CtxError) (hfb : firstBranchErr rs = none)
    (hj : joinAll rs c = .error ce) :
    parallelStep name rs catchRun nextRun c =
      { result := .ctxErr ce, log := branchLogs rs ++ [(name, ctxErrStatus)] } := by
  simp [parallelStep, hfb, hj]

theorem firstBranchErr_inr_elim (rs : List (Outcome × Path)) (e : Err)
    (h : firstBranchErr rs = some (.inr e)) :
    ∃ r ∈ rs, r.1.result = .failed e := by
  induction rs with
  | nil => exact Option.noConfusion h
  | cons x rest ih =>
    obtain ⟨o, p⟩ := x
    cases hres : o.result with
    | succeeded bc =>
      rw [firstBranchErr_cons_succ o p rest bc hres] at h
      obtain ⟨r, hr, hres2⟩ := ih h
      exact ⟨r, List.mem_cons_of_mem _ hr, hres2⟩
    | failed e2 =>
      rw [firstBranchErr_cons_failed o p rest e2 hres] at h
      simp only [Option.some_inj, Sum.inr.injEq] at h
      subst h
      exact ⟨(o, p), List.mem_cons_self _ _, hres⟩
    | ctxErr ce =>
      rw [firstBranchErr_cons_ctxErr o p rest ce hres] at h
      simp at h

/-- A catch list whose every pattern list is exactly
[States.TaskFailed] matches no error of a different kind. -/
theorem matchCatch_TF_none (k : ErrorKind)
    (catches : List (List String × Node))
    (hpat : ∀ r ∈ catches, r.1 = ["States.TaskFailed"])
    (hk : k ≠ "States.TaskFailed") : matchCatch k catches = none := by
  apply matchCatch_none
  intro r hr
  rw [hpat r hr]
  simp [hk]

/-- The accuracy Choice never logs a handler state and only fails with
the empty error name of its Fail default. -/
theorem checkAccuracyProps (c : Ctx) :
    handlerFree (run checkAccuracyStep c).log ∧
    ∀ e, (run checkAccuracyStep c).result = .failed e →
      e.kind ≠ "States.TaskFailed" := by
  by_cases hp : evalPred thresholdRule c = true
  · have hsel : selectRule c [(thresholdRule, checkAccuracySucceedStep)] =
        some checkAccuracySucceedStep := by simp [selectRule, hp]
    rw [show checkAccuracyStep = .choice "RMSE < 10"
      [(thresholdRule, checkAccuracySucceedStep)]
      (some checkAccuracyFailStep) from rfl,
      run_choice_match _ _ _ _ _ hsel]
    refine ⟨by simp [handlerFree, prependLog, run, checkAccuracySucceedStep], ?_⟩
    intro e he
    rw [prependLog_result] at he
    simp [run, checkAccuracySucceedStep] at he
  · have hsel : selectRule c [(thresholdRule, checkAccuracySucceedStep)] =
        none := by simp [selectRule, hp]
    rw [show checkAccuracyStep = .choice "RMSE < 10"
      [(thresholdRule, checkAccuracySucceedStep)]
      (some checkAccuracyFailStep) from rfl,
      run_choice_default _ _ _ _ hsel]
    refine ⟨by simp [handlerFree, prependLog, run, checkAccuracyFailStep], ?_⟩
    intro e he
    rw [prependLog_result] at he
    simp only [run, checkAccuracyFailStep] at he
    simp only [RunResult.failed.injEq] at he
    subst he
    simp

/-- The Query Training Results step and its continuation never log a
handler state and only fail with non-TaskFailed kinds. -/
theorem queryStepProps (qAct : Ctx → Except Err Ctx) (c : Ctx)
    (hq : NoTF qAct) :
    handlerFree (run (.task "Query Training Results"
      [("TrainingJobName", .ref ["TrainingJobName"])] qAct
      ["QueryTrainingResults"] [] checkAccuracyStep) c).log ∧
    ∀ e, (run (.task "Query Training Results"
      [("TrainingJobName", .ref ["TrainingJobName"])] qAct
      ["QueryTrainingResults"] [] checkAccuracyStep) c).result = .failed e →
      e.kind ≠ "States.TaskFailed" := by
  cases hr : resolveInputs [("TrainingJobName", .ref ["TrainingJobName"])] c with
  | error ce =>
    rw [run_task_resolveErr _ _ _ _ _ _ _ _ hr]
    refine ⟨by simp [handlerFree], ?_⟩
    intro e he
    simp at he
  | ok p1 =>
    cases ha : qAct p1 with
    | error e1 =>
      rw [run_task_uncaught _ _ _ _ [] _ _ _ _ hr ha rfl]
      refine ⟨by simp [handlerFree], ?_⟩
      intro e he
      simp only [RunResult.failed.injEq] at he
      subst he
      exact hq p1 e1 ha
    | ok out1 =>
      rw [run_task_ok _ _ _ _ _ _ _ _ _ hr ha]
      obtain ⟨h1, h2⟩ :=
        checkAccuracyProps (ctxMergeAt out1 ["QueryTrainingResults"] c)
      refine ⟨?_, ?_⟩
      · simp only [prependLog]
        refine handlerFree_append _ _ (by simp [handlerFree]) h1
      · intro e he
        rw [prependLog_result] at he
        exact h2 e he

/-- The Save Model step and its continuation never log a handler state
and only fail with non-TaskFailed kinds. -/
theorem modelStepProps (mAct qAct : Ctx → Except Err Ctx) (c : Ctx)
    (hm : NoTF mAct) (hq : NoTF qAct) :
    handlerFree (run (.task "Save Model"
      [("Input", .ref ["TrainingResults", "ModelArtifacts"])] mAct
      ["ModelStepResults"] []
      (.task "Query Training Results"
        [("TrainingJobName", .ref ["TrainingJobName"])] qAct
        ["QueryTrainingResults"] [] checkAccuracyStep)) c).log ∧
    ∀ e, (run (.task "Save Model"
      [("Input", .ref ["TrainingResults", "ModelArtifacts"])] mAct
      ["ModelStepResults"] []
      (.task "Query Training Results"
        [("TrainingJobName", .ref ["TrainingJobName"])] qAct
        ["QueryTrainingResults"] [] checkAccuracyStep)) c).result =
        .failed e →
      e.kind ≠ "States.TaskFailed" := by
  cases hr : resolveInputs
      [("Input", .ref ["TrainingResults", "ModelArtifacts"])] c with
  | error ce =>
    rw [run_task_resolveErr _ _ _ _ _ _ _ _ hr]
    refine ⟨by simp [handlerFree], ?_⟩
    intro e he
    simp at he
  | ok p1 =>
    cases ha : mAct p1 with
    | error e1 =>
      rw [run_task_uncaught _ _ _ _ [] _ _ _ _ hr ha rfl]
      refine ⟨by simp [handlerFree], ?_⟩
      intro e he
      simp only [RunResult.failed.injEq] at he
      subst he
      exact hm p1 e1 ha
    | ok out1 =>
      rw [run_task_ok _ _ _ _ _ _ _ _ _ hr ha]
      obtain ⟨h1, h2⟩ :=
        queryStepProps qAct (ctxMergeAt out1 ["ModelStepResults"] c) hq
      refine ⟨?_, ?_⟩
      · simp only [prependLog]
        refine handlerFree_append _ _ (by simp [handlerFree]) h1
      · intro e he
        rw [prependLog_result] at he
        exact h2 e he

/-- The training branch never logs a handler state and only fails with
non-TaskFailed kinds, whenever its actions do. -/
theorem trainingBranchProps (tAct mAct qAct : Ctx → Except Err Ctx) (c : Ctx)
    (ht : NoTF tAct) (hm : NoTF mAct) (hq : NoTF qAct) :
    handlerFree (run (trainingBranch tAct mAct qAct) c).log ∧
    ∀ e, (run (trainingBranch tAct mAct qAct) c).result = .failed e →
      e.kind ≠ "States.TaskFailed" := by
  simp only [trainingBranch]
  cases hr : resolveInputs [("TrainingJobName", .ref ["TrainingJobName"])] c with
  | error ce =>
    rw [run_task_resolveErr _ _ _ _ _ _ _ _ hr]
    refine ⟨by simp [handlerFree], ?_⟩
    intro e he
    simp at he
  | ok p1 =>
    cases ha : tAct p1 with
    | error e1 =>
      have hk1 := ht p1 e1 ha
      have hmc : matchCatch e1.kind trainingCatch = none :=
        matchCatch_TF_none _ _ (by
          intro r hrr
          simp only [trainingCatch, List.mem_singleton] at hrr
          subst hrr
          rfl) hk1
      rw [run_task_uncaught _ _ _ _ _ _ _ _ _ hr ha hmc]
      refine ⟨by simp [handlerFree], ?_⟩
      intro e he
      simp only [RunResult.failed.injEq] at he
      subst he
      exact hk1
    | ok out1 =>
      rw [run_task_ok _ _ _ _ _ _ _ _ _ hr ha]
      obtain ⟨h1, h2⟩ :=
        modelStepProps mAct qAct (ctxMergeAt out1 ["TrainingResults"] c) hm hq
      refine ⟨?_, ?_⟩
      · simp only [prependLog]
        refine handlerFree_append _ _ (by simp [handlerFree]) h1
      · intro e he
        rw [prependLog_result] at he
        exact h2 e he

/-- The baseline branch never logs a handler state and only fails with
non-TaskFailed kinds, whenever its action does. -/
theorem baselineBranchProps (bAct : Ctx → Except Err Ctx) (c : Ctx)
    (hb : NoTF bAct) :
    handlerFree (run (baselineBranch bAct) c).log ∧
    ∀ e, (run (baselineBranch bAct) c).result = .failed e →
      e.kind ≠ "States.TaskFailed" := by
  simp only [baselineBranch]
  cases hr : resolveInputs [("BaselineJobName", .ref ["BaselineJobName"])] c with
  | error ce =>
    rw [run_task_resolveErr _ _ _ _ _ _ _ _ hr]
    refine ⟨by simp [handlerFree], ?_⟩
    intro e he
    simp at he
  | ok p1 =>
    cases ha : bAct p1 with
    | error e1 =>
      have hk1 := hb p1 e1 ha
      have hmc : matchCatch e1.kind baselineCatch = none :=
        matchCatch_TF_none _ _ (by
          intro r hrr
          simp only [baselineCatch, List.mem_singleton] at hrr
          subst hrr
          rfl) hk1
      rw [run_task_uncaught _ _ _ _ _ _ _ _ _ hr ha hmc]
      refine ⟨by simp [handlerFree], ?_⟩
      intro e he
      simp only [RunResult.failed.injEq] at he
      subst he
      exact hk1
    | ok out1 =>
      rw [run_task_ok _ _ _ _ _ _ _ _ _ hr ha]
      refine ⟨by simp [handlerFree, prependLog, run], ?_⟩
      intro e he
      rw [prependLog_result] at he
      simp [run] at he

/-- The SageMaker Jobs Parallel node never logs a handler state and
only fails with non-TaskFailed kinds, whenever its actions do. -/
theorem sagemakerJobsProps (bAct tAct mAct qAct : Ctx → Except Err Ctx)
    (c : Ctx) (hb : NoTF bAct) (ht : NoTF tAct) (hm : NoTF mAct)
    (hq : NoTF qAct) :
    handlerFree (run (sagemakerJobs bAct tAct mAct qAct) c).log ∧
    ∀ e, (run (sagemakerJobs bAct tAct mAct qAct) c).result = .failed e →
      e.kind ≠ "States.TaskFailed" := by
  obtain ⟨hb1, hb2⟩ := baselineBranchProps bAct c hb
  obtain ⟨ht1, ht2⟩ := trainingBranchProps tAct mAct qAct c ht hm hq
  have hrs : runBranches
      [(baselineBranch bAct, ["0"]), (trainingBranch tAct mAct qAct, ["1"])]
      c =
      [(run (baselineBranch bAct) c, ["0"]),
       (run (trainingBranch tAct mAct qAct) c, ["1"])] := by
    simp [runBranches]
  have hblog : handlerFree (branchLogs
      [(run (baselineBranch bAct) c, (["0"] : Path)),
       (run (trainingBranch tAct mAct qAct) c, ["1"])]) := by
    simp only [branchLogs, List.foldr_cons, List.foldr_nil]
    exact handlerFree_append _ _ hb1
      (handlerFree_append _ _ ht1 handlerFree_nil)
  simp only [sagemakerJobs]
  rw [run_parallel_eq, hrs]
  cases hfb : firstBranchErr
      [(run (baselineBranch bAct) c, (["0"] : Path)),
       (run (trainingBranch tAct mAct qAct) c, ["1"])] with
  | none =>
    cases hj : joinAll
        [(run (baselineBranch bAct) c, (["0"] : Path)),
         (run (trainingBranch tAct mAct qAct) c, ["1"])] c with
    | error ce =>
      rw [parallelStep_join_err _ _ _ _ _ _ hfb hj]
      refine ⟨?_, ?_⟩
      · exact handlerFree_append _ _ hblog (by simp [handlerFree])
      · intro e he
        simp at he
    | ok c2 =>
      rw [parallelStep_all_ok _ _ _ _ _ _ hfb hj]
      refine ⟨?_, ?_⟩
      · simp only [prependLog]
        refine handlerFree_append _ _ ?_ (by simp [handlerFree, run])
        exact handlerFree_append _ _ hblog (by simp [handlerFree])
      · intro e he
        rw [prependLog_result] at he
        simp [run] at he
  | some err =>
    cases err with
    | inl ce =>
      rw [parallelStep_branch_ctxErr _ _ _ _ _ _ hfb]
      refine ⟨?_, ?_⟩
      · exact handlerFree_append _ _ hblog (by simp [handlerFree])
      · intro e he
        simp at he
    | inr e =>
      have hke : e.kind ≠ "States.TaskFailed" := by
        obtain ⟨r, hr, hres⟩ := firstBranchErr_inr_elim _ e hfb
        rcases List.mem_cons.mp hr with heq | hr2
        · subst heq
          exact hb2 e hres
        · rcases List.mem_cons.mp hr2 with heq | hr3
          · subst heq
            exact ht2 e hres
          · exact absurd hr3 (List.not_mem_nil _)
      have hmc : runCatches e.kind c sagemakerJobsCatch = none := by
        rw [runCatches_eq, matchCatch_TF_none e.kind sagemakerJobsCatch ?hpat hke]
        · rfl
        case hpat =>
          intro r hrr
          simp only [sagemakerJobsCatch, List.mem_singleton] at hrr
          subst hrr
          rfl
      rw [parallelStep_uncaught _ _ _ _ _ _ hfb hmc]
      refine ⟨?_, ?_⟩
      · exact handlerFree_append _ _ hblog (by simp [handlerFree])
      · intro e2 he
        simp only [RunResult.failed.injEq] at he
        subst he
        exact hke

/-- The whole notebook workflow graph never logs a handler state and
only fails with non-TaskFailed kinds, whenever its actions do. -/
theorem workflowGraphProps (cAct bAct tAct mAct qAct : Ctx → Except Err Ctx)
    (input : Ctx) (hc : NoTF cAct) (hb : NoTF bAct) (ht : NoTF tAct)
    (hm : NoTF mAct) (hq : NoTF qAct) :
    handlerFree (run (workflowGraph cAct bAct tAct mAct qAct) input).log ∧
    ∀ e, (run (workflowGraph cAct bAct tAct mAct qAct) input).result =
        .failed e →
      e.kind ≠ "States.TaskFailed" := by
  simp only [workflowGraph]
  cases hr : resolveInputs
      [("ExperimentName", .ref ["ExperimentName"]),
       ("TrialName", .ref ["TrialName"])] input with
  | error ce =>
    rw [run_task_resolveErr _ _ _ _ _ _ _ _ hr]
    refine ⟨by simp [handlerFree], ?_⟩
    intro e he
    simp at he
  | ok p0 =>
    cases ha : cAct p0 with
    | error e0 =>
      rw [run_task_uncaught _ _ _ _ [] _ _ _ _ hr ha rfl]
      refine ⟨by simp [handlerFree], ?_⟩
      intro e he
      simp only [RunResult.failed.injEq] at he
      subst he
      exact hc p0 e0 ha
    | ok out0 =>
      rw [run_task_ok _ _ _ _ _ _ _ _ _ hr ha]
      obtain ⟨hs1, hs2⟩ := sagemakerJobsProps bAct tAct mAct qAct
        (ctxMergeAt out0 ["CreateTrialResults"] input) hb ht hm hq
      refine ⟨?_, ?_⟩
      · simp only [prependLog]
        exact handlerFree_append _ _ (by simp [handlerFree]) hs1
      · intro e he
        rw [prependLog_result] at he
        exact hs2 e he

/-- Canonical succeeding training action: writes the model artifact
key the Save Model step references. -/
def tOk : Ctx → Except Err Ctx :=
  fun _ => .ok [(["ModelArtifacts"], .vstr "model")]

/-- Canonical succeeding query action: writes the metric value 5 below
the query result path, so the accuracy rule matches. -/
def qOk : Ctx → Except Err Ctx :=
  fun _ => .ok [(["Payload", "results", "TrainingMetrics", "0", "Value"],
    .vnum 5)]

theorem resolveCreate (input : Ctx) (vE vT : Val)
    (hE : ctxGet ["ExperimentName"] input = some vE)
    (hT : ctxGet ["TrialName"] input = some vT) :
    resolveInputs [("ExperimentName", .ref ["ExperimentName"]),
      ("TrialName", .ref ["TrialName"])] input =
      .ok [(["ExperimentName"], vE), (["TrialName"], vT)] := by
  simp [resolveInputs, ctxGetE, hE, hT, Except.map]

theorem resolveJobName (input : Ctx) (vJ : Val)
    (hJ : ctxGet ["TrainingJobName"] input = some vJ) :
    resolveInputs [("TrainingJobName", .ref ["TrainingJobName"])] input =
      .ok [(["TrainingJobName"], vJ)] := by
  simp [resolveInputs, ctxGetE, hJ, Except.map]

/-- The baseline branch with the canonical succeeding action. -/
theorem baselineBranchOk (input : Ctx) (vB : Val)
    (hB : ctxGet ["BaselineJobName"] input = some vB) :
    run (baselineBranch actOkEmpty) input =
      { result := .succeeded input
        log := [("Baseline Job", .succeeded), ("Baseline End", .succeeded)] } := by
  simp only [baselineBranch]
  have hr : resolveInputs [("BaselineJobName", .ref ["BaselineJobName"])]
      input = .ok [(["BaselineJobName"], vB)] := by
    simp [resolveInputs, ctxGetE, hB, Except.map]
  rw [run_task_ok _ _ actOkEmpty _ _ _ _ _ [] hr rfl]
  simp [run, prependLog, ctxMergeAt]

/-- The baseline branch with an action failing with a non-TaskFailed
kind: the failure is uncaught in the branch. -/
theorem baselineBranchFails (k : ErrorKind) (s : String) (input : Ctx)
    (vB : Val) (hk : k ≠ "States.TaskFailed")
    (hB : ctxGet ["BaselineJobName"] input = some vB) :
    run (baselineBranch (actFailWith k s)) input =
      { result := .failed ⟨k, s⟩
        log := [("Baseline Job", .failed ⟨k, s⟩)] } := by
  simp only [baselineBranch]
  have hr : resolveInputs [("BaselineJobName", .ref ["BaselineJobName"])]
      input = .ok [(["BaselineJobName"], vB)] := by
    simp [resolveInputs, ctxGetE, hB, Except.map]
  have hmc : matchCatch k baselineCatch = none :=
    matchCatch_TF_none _ _ (by
      intro r hrr
      simp only [baselineCatch, List.mem_singleton] at hrr
      subst hrr
      rfl) hk
  rw [run_task_uncaught _ _ (actFailWith k s) _ _ _ _ _ ⟨k, s⟩ hr rfl hmc]

/-- The training branch with the canonical succeeding actions runs to
its Succeed state. -/
theorem trainingBranchOk (input : Ctx) (vJ : Val)
    (hJ : ctxGet ["TrainingJobName"] input = some vJ) :
    ∃ c4, run (trainingBranch tOk actOkEmpty qOk) input =
      { result := .succeeded c4
        log := [("Training Job", .succeeded), ("Save Model", .succeeded),
          ("Query Training Results", .succeeded), ("RMSE < 10", .succeeded),
          ("Model Error Acceptable", .succeeded)] } := by
  simp only [trainingBranch]
  rw [run_task_ok _ _ tOk _ _ _ _ _ [(["ModelArtifacts"], Val.vstr "model")]
    (resolveJobName input vJ hJ) rfl]
  have hr2 : resolveInputs
      [("Input", .ref ["TrainingResults", "ModelArtifacts"])]
      (ctxMergeAt [(["ModelArtifacts"], Val.vstr "model")] ["TrainingResults"]
        input) = .ok [(["Input"], .vstr "model")] := by
    simp [resolveInputs, ctxGetE, ctxMergeAt, ctxGet, Except.map]
  rw [run_task_ok _ _ actOkEmpty _ _ _ _ _ [] hr2 rfl]
  have hr3 : resolveInputs [("TrainingJobName", .ref ["TrainingJobName"])]
      (ctxMergeAt [] ["ModelStepResults"]
        (ctxMergeAt [(["ModelArtifacts"], Val.vstr "model")]
          ["TrainingResults"] input)) = .ok [(["TrainingJobName"], vJ)] := by
    simp [resolveInputs, ctxGetE, ctxMergeAt, ctxGet, hJ, Except.map]
  rw [run_task_ok _ _ qOk _ _ _ _ _
    [(["Payload", "results", "TrainingMetrics", "0", "Value"], Val.vnum 5)]
    hr3 rfl]
  have hsel : selectRule
      (ctxMergeAt
        [(["Payload", "results", "TrainingMetrics", "0", "Value"], Val.vnum 5)]
        ["QueryTrainingResults"]
        (ctxMergeAt [] ["ModelStepResults"]
          (ctxMergeAt [(["ModelArtifacts"], Val.vstr "model")]
            ["TrainingResults"] input)))
      [(thresholdRule, checkAccuracySucceedStep)] =
      some checkAccuracySucceedStep := by
    simp [selectRule, evalPred, thresholdRule, metricPath, ctxMergeAt, ctxGet]
  rw [show checkAccuracyStep = .choice "RMSE < 10"
    [(thresholdRule, checkAccuracySucceedStep)]
    (some checkAccuracyFailStep) from rfl,
    run_choice_match _ _ _ _ _ hsel]
  refine ⟨ctxMergeAt
    [(["Payload", "results", "TrainingMetrics", "0", "Value"], Val.vnum 5)]
    ["QueryTrainingResults"]
    (ctxMergeAt [] ["ModelStepResults"]
      (ctxMergeAt [(["ModelArtifacts"], Val.vstr "model")]
        ["TrainingResults"] input)), ?_⟩
  simp [run, prependLog, checkAccuracySucceedStep]

/-- The training branch when the training action itself fails with a
non-TaskFailed kind: the failure is uncaught in the branch. -/
theorem trainingBranchFailsT (k : ErrorKind) (s : String) (input : Ctx)
    (vJ : Val) (hk : k ≠ "States.TaskFailed")
    (hJ : ctxGet ["TrainingJobName"] input = some vJ) :
    run (trainingBranch (actFailWith k s) actOkEmpty qOk) input =
      { result := .failed ⟨k, s⟩
        log := [("Training Job", .failed ⟨k, s⟩)] } := by
  simp only [trainingBranch]
  have hmc : matchCatch k trainingCatch = none :=
    matchCatch_TF_none _ _ (by
      intro r hrr
      simp only [trainingCatch, List.mem_singleton] at hrr
      subst hrr
      rfl) hk
  rw [run_task_uncaught _ _ (actFailWith k s) _ _ _ _ _ ⟨k, s⟩
    (resolveJobName input vJ hJ) rfl hmc]

/-- The training branch when the Save Model action fails with a
non-TaskFailed kind: the Save Model step has no catch rules, so the
failure is uncaught in the branch. -/
theorem trainingBranchFailsM (k : ErrorKind) (s : String) (input : Ctx)
    (vJ : Val) (hJ : ctxGet ["TrainingJobName"] input = some vJ) :
    run (trainingBranch tOk (actFailWith k s) qOk) input =
      { result := .failed ⟨k, s⟩
        log := [("Training Job", .succeeded),
          ("Save Model", .failed ⟨k, s⟩)] } := by
  simp only [trainingBranch]
  rw [run_task_ok _ _ tOk _ _ _ _ _ [(["ModelArtifacts"], Val.vstr "model")]
    (resolveJobName input vJ hJ) rfl]
  have hr2 : resolveInputs
      [("Input", .ref ["TrainingResults", "ModelArtifacts"])]
      (ctxMergeAt [(["ModelArtifacts"], Val.vstr "model")] ["TrainingResults"]
        input) = .ok [(["Input"], .vstr "model")] := by
    simp [resolveInputs, ctxGetE, ctxMergeAt, ctxGet, Except.map]
  rw [run_task_uncaught _ _ (actFailWith k s) _ [] _ _ _ ⟨k, s⟩ hr2 rfl rfl]
  rfl

/-- The training branch when the query action fails with a
non-TaskFailed kind: the query step has no catch rules, so the failure
is uncaught in the branch. -/
theorem trainingBranchFailsQ (k : ErrorKind) (s : String) (input : Ctx)
    (vJ : Val) (hJ : ctxGet ["TrainingJobName"] input = some vJ) :
    run (trainingBranch tOk actOkEmpty (actFailWith k s)) input =
      { result := .failed ⟨k, s⟩
        log := [("Training Job", .succeeded), ("Save Model", .succeeded),
          ("Query Training Results", .failed ⟨k, s⟩)] } := by
  simp only [trainingBranch]
  rw [run_task_ok _ _ tOk _ _ _ _ _ [(["ModelArtifacts"], Val.vstr "model")]
    (resolveJobName input vJ hJ) rfl]
  have hr2 : resolveInputs
      [("Input", .ref ["TrainingResults", "ModelArtifacts"])]
      (ctxMergeAt [(["ModelArtifacts"], Val.vstr "model")] ["TrainingResults"]
        input) = .ok [(["Input"], .vstr "model")] := by
    simp [resolveInputs, ctxGetE, ctxMergeAt, ctxGet, Except.map]
  rw [run_task_ok _ _ actOkEmpty _ _ _ _ _ [] hr2 rfl]
  have hr3 : resolveInputs [("TrainingJobName", .ref ["TrainingJobName"])]
      (ctxMergeAt [] ["ModelStepResults"]
        (ctxMergeAt [(["ModelArtifacts"], Val.vstr "model")]
          ["TrainingResults"] input)) = .ok [(["TrainingJobName"], vJ)] := by
    simp [resolveInputs, ctxGetE, ctxMergeAt, ctxGet, hJ, Except.map]
  rw [run_task_uncaught _ _ (actFailWith k s) _ [] _ _ _ ⟨k, s⟩ hr3 rfl rfl]
  rfl

/-- A branch failure with a non-TaskFailed kind is not caught by the
SageMaker Jobs catch rule and makes the Parallel node fail with the
same error. -/
theorem sagemakerJobsFailed (bAct tAct mAct qAct : Ctx → Except Err Ctx)
    (input : Ctx) (e : Err)
    (hfb : firstBranchErr (runBranches
      [(baselineBranch bAct, ["0"]), (trainingBranch tAct mAct qAct, ["1"])]
      input) = some (.inr e))
    (hke : e.kind ≠ "States.TaskFailed") :
    (run (sagemakerJobs bAct tAct mAct qAct) input).result = .failed e := by
  have hmc : runCatches e.kind input sagemakerJobsCatch = none := by
    rw [runCatches_eq, matchCatch_TF_none e.kind sagemakerJobsCatch ?hpat hke]
    · rfl
    case hpat =>
      intro r hrr
      simp only [sagemakerJobsCatch, List.mem_singleton] at hrr
      subst hrr
      rfl
  simp only [sagemakerJobs]
  rw [run_parallel_eq, parallelStep_uncaught _ _ _ _ _ _ hfb hmc]

/-- With the Create Experiment step succeeding, the run result of the
whole workflow graph is the result of the SageMaker Jobs node. -/
theorem workflowGraphResult (bAct tAct mAct qAct : Ctx → Except Err Ctx)
    (input : Ctx) (vE vT : Val)
    (hE : ctxGet ["ExperimentName"] input = some vE)
    (hT : ctxGet ["TrialName"] input = some vT) :
    (run (workflowGraph actOkEmpty bAct tAct mAct qAct) input).result =
      (run (sagemakerJobs bAct tAct mAct qAct) input).result := by
  simp only [workflowGraph]
  rw [run_task_ok _ _ actOkEmpty _ _ _ _ _ [] (resolveCreate input vE vT hE hT)
    rfl, prependLog_result]
  rfl

/-- C10: every catch rule in the notebook graph (baseline step,
training step, SageMaker Jobs Parallel) matches only the single error
kind States.TaskFailed; consequently in every run whose external
actions fail only with other error kinds no catch rule in the graph
matches — none of the three declared Fail handler states is ever
visited and any failure ending the run carries a non-TaskFailed kind —
and for each of the five steps of the graph, a failure of that step
with any other kind propagates unhandled to the run root and terminates
the run in Failed with that error. -/
theorem C10_catch_only_taskFailed :
    (∀ cAct bAct tAct mAct qAct : Ctx → Except Err Ctx,
      collectCatchPats (workflowGraph cAct bAct tAct mAct qAct) =
        [["States.TaskFailed"], ["States.TaskFailed"],
         ["States.TaskFailed"]]) ∧
    (∀ (cAct bAct tAct mAct qAct : Ctx → Except Err Ctx) (input : Ctx),
      NoTF cAct → NoTF bAct → NoTF tAct → NoTF mAct → NoTF qAct →
      handlerFree (run (workflowGraph cAct bAct tAct mAct qAct) input).log ∧
      (∀ e, (run (workflowGraph cAct bAct tAct mAct qAct) input).result =
          .failed e → e.kind ≠ "States.TaskFailed")) ∧
    (∀ (k : ErrorKind) (s : String), k ≠ "States.TaskFailed" →
      ∀ (input : Ctx) (vE vT vB vJ : Val),
      ctxGet ["ExperimentName"] input = some vE →
      ctxGet ["TrialName"] input = some vT →
      ctxGet ["BaselineJobName"] input = some vB →
      ctxGet ["TrainingJobName"] input = some vJ →
      (∀ bAct tAct mAct qAct : Ctx → Except Err Ctx,
        (run (workflowGraph (actFailWith k s) bAct tAct mAct qAct)
          input).result = .failed ⟨k, s⟩) ∧
      (run (workflowGraph actOkEmpty (actFailWith k s) tOk actOkEmpty qOk)
        input).result = .failed ⟨k, s⟩ ∧
      (run (workflowGraph actOkEmpty actOkEmpty (actFailWith k s) actOkEmpty
        qOk) input).result = .failed ⟨k, s⟩ ∧
      (run (workflowGraph actOkEmpty actOkEmpty tOk (actFailWith k s) qOk)
        input).result = .failed ⟨k, s⟩ ∧
      (run (workflowGraph actOkEmpty actOkEmpty tOk actOkEmpty
        (actFailWith k s)) input).result = .failed ⟨k, s⟩) := by
  refine ⟨?_, ?_, ?_⟩
  · intro cAct bAct tAct mAct qAct
    rfl
  · intro cAct bAct tAct mAct qAct input hc hb ht hm hq
    exact workflowGraphProps cAct bAct tAct mAct qAct input hc hb ht hm hq
  · intro k s hk input vE vT vB vJ hE hT hB hJ
    refine ⟨?_, ?_, ?_, ?_, ?_⟩
    · intro bAct tAct mAct qAct
      simp only [workflowGraph]
      rw [run_task_uncaught _ _ (actFailWith k s) _ [] _ _ _ ⟨k, s⟩
        (resolveCreate input vE vT hE hT) rfl rfl]
    · rw [workflowGraphResult _ _ _ _ input vE vT hE hT]
      apply sagemakerJobsFailed _ _ _ _ _ ⟨k, s⟩ ?_ hk
      have h1 := baselineBranchFails k s input vB hk hB
      simp only [runBranches]
      rw [firstBranchErr_cons_failed _ _ _ ⟨k, s⟩ (by rw [h1])]
    · rw [workflowGraphResult _ _ _ _ input vE vT hE hT]
      apply sagemakerJobsFailed _ _ _ _ _ ⟨k, s⟩ ?_ hk
      have h1 := baselineBranchOk input vB hB
      have h2 := trainingBranchFailsT k s input vJ hk hJ
      simp only [runBranches]
      rw [firstBranchErr_cons_succ _ _ _ input (by rw [h1]),
        firstBranchErr_cons_failed _ _ _ ⟨k, s⟩ (by rw [h2])]
    · rw [workflowGraphResult _ _ _ _ input vE vT hE hT]
      apply sagemakerJobsFailed _ _ _ _ _ ⟨k, s⟩ ?_ hk
      have h1 := baselineBranchOk input vB hB
      have h2 := trainingBranchFailsM k s input vJ hJ
      simp only [runBranches]
      rw [firstBranchErr_cons_succ _ _ _ input (by rw [h1]),
        firstBranchErr_cons_failed _ _ _ ⟨k, s⟩ (by rw [h2])]
    · rw [workflowGraphResult _ _ _ _ input vE vT hE hT]
      apply sagemakerJobsFailed _ _ _ _ _ ⟨k, s⟩ ?_ hk
      have h1 := baselineBranchOk input vB hB
      have h2 := trainingBranchFailsQ k s input vJ hJ
      simp only [runBranches]
      rw [firstBranchErr_cons_succ _ _ _ input (by rw [h1]),
        firstBranchErr_cons_failed _ _ _ ⟨k, s⟩ (by rw [h2])]

/-- C10 witness: the structural part instantiated; the no-handler-visit
part on a run with a Timeout-failing training action; and the
root-propagation part at the concrete kind States.Timeout on the
notebook input, for each of the five steps. -/
theorem C10_catch_only_taskFailed_witness :
    collectCatchPats (workflowGraph actOkEmpty actOkEmpty actOkEmpty
        actOkEmpty actOkEmpty) =
      [["States.TaskFailed"], ["States.TaskFailed"], ["States.TaskFailed"]] ∧
    handlerFree (run (workflowGraph actOkEmpty actOkEmpty
      (actFailWith "States.Timeout" "too slow") actOkEmpty actOkEmpty)
      nbInput).log ∧
    (run (workflowGraph actOkEmpty actOkEmpty
      (actFailWith "States.Timeout" "too slow") actOkEmpty qOk)
      nbInput).result = .failed ⟨"States.Timeout", "too slow"⟩ ∧
    (run (workflowGraph actOkEmpty (actFailWith "States.Timeout" "too slow")
      tOk actOkEmpty qOk) nbInput).result =
      .failed ⟨"States.Timeout", "too slow"⟩ := by
  have hnotf : NoTF actOkEmpty := by
    intro p e h
    simp [actOkEmpty] at h
  have hnotfF : NoTF (actFailWith "States.Timeout" "too slow") := by
    intro p e h
    simp only [actFailWith, Except.error.injEq] at h
    subst h
    decide
  have h3 := C10_catch_only_taskFailed.2.2 "States.Timeout" "too slow"
    (by decide) nbInput (.vstr "mlops-model") (.vstr "mlops-model-job")
    (.vstr "mlops-model-job") (.vstr "mlops-model-job") (by decide)
    (by decide) (by decide) (by decide)
  refine ⟨C10_catch_only_taskFailed.1 actOkEmpty actOkEmpty actOkEmpty
    actOkEmpty actOkEmpty, ?_, h3.2.2.1, h3.2.1⟩
  exact (C10_catch_only_taskFailed.2.1 actOkEmpty actOkEmpty
    (actFailWith "States.Timeout" "too slow") actOkEmpty actOkEmpty nbInput
    hnotf hnotf hnotfF hnotf hnotf).1

end Wf
